import Mathlib

/-!
# ip17mon: a verification development

Shallow embedding of `src/ip17mon.go` (package `ip17mon`), an IPv4 geolocation
lookup over a binary database held in memory.

Conventions of the embedding.

* A Go `byte` is a `Fin 256`; only its value `.val` is used, never the modular
  arithmetic of `Fin`.
* A Go `string` is the list of its bytes.
* A Go `[]byte` that is re-sliced by the program (`data`, `textData`) is a
  `Slice`: the backing array seen from the first element of the slice up to its
  capacity, together with the length.  A slice expression `s[lo:hi]` is checked
  against the capacity, an index expression `s[i]` against the length, as the
  Go language specification says.
* Go `int` is taken to be 64 bits wide and is embedded as `Int`: every `int`
  the program computes is bounded in size by a slice length or by `2^32`, so
  no operation wraps.  Go `uint32` is a `Nat`; the program only compares such
  values, shifts them right, or builds them from bytes by left shifts of at
  most 24 bits, which stay below `2^32` (`bigEndianUint32_lt`,
  `littleEndianUint32_lt`).
* A run-time panic (index or slice bounds out of range, negative `make`
  length, nil dereference) is the value `none` of an `Option`.
-/

namespace Ip17mon

/-! ## Bytes, strings and slices -/

/-- A Go `byte`. -/
abbrev Byte := Fin 256

/-- A Go `string`, or the contents of a `[]byte`: a sequence of bytes. -/
abbrev Bytes := List Byte

/-- The bytes of an ASCII string literal of the program text. -/
def ascii (s : String) : Bytes := s.toList.map (fun c => Fin.ofNat c.toNat)

/-- A Go `[]byte` value: `mem` is the backing array from the first element of
the slice to the end of its capacity, `len` is the length of the slice. -/
structure Slice where
  mem : Bytes
  len : Nat
  len_le : len ≤ mem.length

namespace Slice

/-- Go `cap(s)`. -/
def cap (s : Slice) : Nat := s.mem.length

/-- The elements of the slice, `s[0], ..., s[len(s)-1]`. -/
def bytes (s : Slice) : Bytes := s.mem.take s.len

/-- A slice whose capacity equals its length, holding the given bytes. -/
def ofBytes (l : Bytes) : Slice := ⟨l, l.length, Nat.le_refl _⟩

/-- Go `s[lo:hi]`: panics unless `0 <= lo <= hi <= cap(s)`. -/
def slice (s : Slice) (lo hi : Int) : Option Slice :=
  if h : 0 ≤ lo ∧ lo ≤ hi ∧ hi ≤ (s.cap : Int) then
    some ⟨s.mem.drop lo.toNat, hi.toNat - lo.toNat, by
      have h3 := h.2.2
      simp only [cap] at h3
      rw [List.length_drop]
      omega⟩
  else none

/-- Go `s[lo:]`: the upper bound defaults to `len(s)`, so it panics unless
`0 <= lo <= len(s)`. -/
def sliceFrom (s : Slice) (lo : Int) : Option Slice :=
  if 0 ≤ lo ∧ lo ≤ (s.len : Int) then s.slice lo s.len else none

/-- Go `s[i]`: panics unless `0 <= i < len(s)`. -/
def index (s : Slice) (i : Int) : Option Byte :=
  if 0 ≤ i ∧ i < (s.len : Int) then s.mem[i.toNat]? else none

end Slice

/-- Go `xs[i]` on a slice that the program never re-slices: panics unless
`0 <= i < len(xs)`. -/
def getAt {α : Type} (xs : List α) (i : Int) : Option α :=
  if 0 ≤ i then xs[i.toNat]? else none

/-! ## The locator -/

/-- The struct `Locator`. -/
structure Locator where
  textData : Slice
  indexData1 : List Nat
  indexData2 : List Int
  indexData3 : List Int
  index : List Int

/-- The struct `LocationInfo`. -/
structure LocationInfo where
  Country : Bytes
  Region : Bytes
  City : Bytes
  Isp : Bytes
deriving DecidableEq

/-! ## Binary search: `findIndexOffset` -/

/-- The loop `for start < end { ... }` of `findIndexOffset`, run for at most
`fuel` iterations; it yields the final `(start, end)`.  `none` when
`indexData1[mid]` panics, or when the loop has not exited after `fuel`
iterations. -/
def searchLoop (tbl : List Nat) (ip : Nat) : Nat → Int → Int → Option (Int × Int)
  | 0, start, end_ => if start < end_ then none else some (start, end_)
  | fuel + 1, start, end_ =>
    if start < end_ then
      let mid := (start + end_).tdiv 2
      match getAt tbl mid with
      | none => none
      | some v =>
        if ip > v then searchLoop tbl ip fuel (mid + 1) end_
        else searchLoop tbl ip fuel start mid
    else some (start, end_)

/-- The method `Locator.findIndexOffset`.  The loop gets `len(indexData1)`
iterations, which is enough whenever `0 <= start` (each iteration shrinks the
interval `[start, end]`, whose length is then below `len(indexData1)`). -/
def findIndexOffset (loc : Locator) (ip : Nat) (start : Int) : Option Int :=
  let end0 : Int := (loc.indexData1.length : Int) - 1
  match searchLoop loc.indexData1 ip loc.indexData1.length start end0 with
  | none => none
  | some (start, end_) =>
    match getAt loc.indexData1 end_ with
    | none => none
    | some v => if v ≥ ip then some end_ else some start

/-! ## Record decoding: `newLocationInfo` -/

/-- The byte `'\t'`. -/
def tab : Byte := 9

/-- The byte `'/'`. -/
def slash : Byte := 47

/-- The constant `Null = "N/A"`. -/
def Null : Bytes := ascii "N/A"

/-- The literal `"unknown"`. -/
def unknown : Bytes := ascii "unknown"

/-- Go `bytes.Split(s, sep)` for a separator `sep` of one byte: the subslices
of `s` between the occurrences of `sep`, in order; one more subslice than
there are occurrences (so `[[]]` for the empty `s`). -/
def bytesSplit (sep : Byte) : Bytes → List Bytes
  | [] => [[]]
  | b :: rest =>
    if b = sep then [] :: bytesSplit sep rest
    else
      match bytesSplit sep rest with
      | [] => [[b]]
      | f :: fs => (b :: f) :: fs

/-- Go `strings.Index(s, sep)` for a separator `sep` of one byte: the index of
the first occurrence of `sep` in `s`, or `-1`. -/
def stringsIndex (sep : Byte) : Bytes → Int
  | [] => -1
  | b :: rest =>
    if b = sep then 0
    else
      let r := stringsIndex sep rest
      if r = -1 then -1 else r + 1

/-- The function `newLocationInfo`. -/
def newLocationInfo (str : Bytes) : LocationInfo :=
  match bytesSplit tab str with
  | [f0, f1, f2, f3] =>
    let Country := if f0.length = 0 then Null else f0
    let Region := if f1.length = 0 then Null else f1
    let City := if f2.length = 0 then Null else f2
    let idx := stringsIndex slash f3
    let Isp := if idx ≠ -1 then f3.take idx.toNat else f3
    let Isp := if Isp.length = 0 then Null else Isp
    { Country := Country, Region := Region, City := City, Isp := Isp }
  | _ =>
    { Country := unknown, Region := unknown, City := unknown, Isp := unknown }

/-! ## Byte order: `encoding/binary` -/

/-- Go `binary.BigEndian.Uint32(b)`: panics unless `len(b) >= 4`; otherwise
`b[3] | b[2]<<8 | b[1]<<16 | b[0]<<24`, which is below `2^32`. -/
def bigEndianUint32 (b : Bytes) : Option Nat :=
  match b with
  | b0 :: b1 :: b2 :: b3 :: _ =>
    some (b3.val ||| b2.val <<< 8 ||| b1.val <<< 16 ||| b0.val <<< 24)
  | _ => none

/-- Go `binary.LittleEndian.Uint32(b)`: panics unless `len(b) >= 4`; otherwise
`b[0] | b[1]<<8 | b[2]<<16 | b[3]<<24`, which is below `2^32`. -/
def littleEndianUint32 (b : Bytes) : Option Nat :=
  match b with
  | b0 :: b1 :: b2 :: b3 :: _ =>
    some (b0.val ||| b1.val <<< 8 ||| b2.val <<< 16 ||| b3.val <<< 24)
  | _ => none

/-! ## Loading: `init` and `NewLocatorWithData` -/

/-- All the results of a list of computations, or `none` if one of them
panics. -/
def collect {α : Type} : List (Option α) → Option (List α)
  | [] => some []
  | x :: xs =>
    match x with
    | none => none
    | some a =>
      match collect xs with
      | none => none
      | some as => some (a :: as)

/-- One iteration of the first loop of `init`: the value stored in
`loc.index[i]`. -/
def loadIndexEntry (data : Slice) (i : Nat) : Option Int :=
  let off : Int := 4 + (i : Int) * 4
  match data.slice off (off + 4) with
  | none => none
  | some b =>
    match littleEndianUint32 b.bytes with
    | none => none
    | some v => some (v : Int)

/-- One iteration of the second loop of `init`: the values stored in
`indexData1[i]`, `indexData2[i]` and `indexData3[i]`. -/
def loadRow (data : Slice) (i : Nat) : Option (Nat × Int × Int) :=
  let off : Int := 4 + 1024 + (i : Int) * 8
  match data.slice off (off + 4) with
  | none => none
  | some b =>
    match bigEndianUint32 b.bytes with
    | none => none
    | some v1 =>
      match data.index (off + 4), data.index (off + 5), data.index (off + 6),
          data.index (off + 7) with
      | some b4, some b5, some b6, some b7 =>
        some (v1, ((b4.val ||| b5.val <<< 8 ||| b6.val <<< 16 : Nat) : Int), (b7.val : Int))
      | _, _, _, _ => none

/-- The method `Locator.init`, as the locator it leaves in `loc`; `none` when
it panics.  `make` with a negative length panics. -/
def init (data : Slice) : Option Locator :=
  match data.slice 0 4 with
  | none => none
  | some hdr =>
    match bigEndianUint32 hdr.bytes with
    | none => none
    | some t =>
      let textoff : Int := (t : Int)
      match data.sliceFrom (textoff - 1024) with
      | none => none
      | some textData =>
        match collect ((List.range 256).map (loadIndexEntry data)) with
        | none => none
        | some index =>
          let nidx : Int := (textoff - 4 - 1024 - 1024).tdiv 8
          if nidx < 0 then none
          else
            match collect ((List.range nidx.toNat).map (loadRow data)) with
            | none => none
            | some rows =>
              some { textData := textData
                     indexData1 := rows.map (fun r => r.1)
                     indexData2 := rows.map (fun r => r.2.1)
                     indexData3 := rows.map (fun r => r.2.2)
                     index := index }

/-- The function `NewLocatorWithData`; `none` when it panics. -/
def NewLocatorWithData (data : Slice) : Option Locator := init data

/-! ## Lookup: `FindByUint` -/

/-- The method `Locator.FindByUint` for `ip < 2^32`; `none` when it panics. -/
def FindByUint (loc : Locator) (ip : Nat) : Option LocationInfo :=
  match getAt loc.index ((ip >>> 24 : Nat) : Int) with
  | none => none
  | some start =>
    match findIndexOffset loc ip start with
    | none => none
    | some idx =>
      match getAt loc.indexData2 idx with
      | none => none
      | some off =>
        match getAt loc.indexData3 idx with
        | none => none
        | some n =>
          match loc.textData.slice off (off + n) with
          | none => none
          | some str => some (newLocationInfo str.bytes)

/-! ## Address parsing: `net.ParseIP`, `IP.To4` and `Find`

`net.ParseIP` and `IP.To4` belong to the Go standard library.  They are
embedded here after the library's own text (`net/ip.go`, `net/parse.go`, the
implementation that scans the string itself, with the rejection of leading
zeros in dotted-decimal fields).  A `net.IP` is its bytes; the nil `IP` is
`none`. -/

/-- The constant `big` of `net/parse.go`. -/
def big : Nat := 0xFFFFFF

/-- The loop of `dtoi`: `n` is the number read so far, `i` the count of
characters consumed. -/
def dtoiLoop : Bytes → Nat → Nat → Nat × Nat × Bool
  | [], n, i => if i = 0 then (0, 0, false) else (n, i, true)
  | c :: rest, n, i =>
    if 48 ≤ c.val ∧ c.val ≤ 57 then
      let n1 := n * 10 + (c.val - 48)
      if n1 ≥ big then (big, i, false) else dtoiLoop rest n1 (i + 1)
    else if i = 0 then (0, 0, false) else (n, i, true)

/-- Go `dtoi(s)`: decimal to integer; the number, the characters consumed,
success. -/
def dtoi (s : Bytes) : Nat × Nat × Bool := dtoiLoop s 0 0

/-- The loop of `xtoi`. -/
def xtoiLoop : Bytes → Nat → Nat → Nat × Nat × Bool
  | [], n, i => if i = 0 then (0, i, false) else (n, i, true)
  | c :: rest, n, i =>
    if 48 ≤ c.val ∧ c.val ≤ 57 then
      let n1 := n * 16 + (c.val - 48)
      if n1 ≥ big then (0, i, false) else xtoiLoop rest n1 (i + 1)
    else if 97 ≤ c.val ∧ c.val ≤ 102 then
      let n1 := n * 16 + (c.val - 97) + 10
      if n1 ≥ big then (0, i, false) else xtoiLoop rest n1 (i + 1)
    else if 65 ≤ c.val ∧ c.val ≤ 70 then
      let n1 := n * 16 + (c.val - 65) + 10
      if n1 ≥ big then (0, i, false) else xtoiLoop rest n1 (i + 1)
    else if i = 0 then (0, i, false) else (n, i, true)

/-- Go `xtoi(s)`: hexadecimal to integer; the number, the characters consumed,
success. -/
def xtoi (s : Bytes) : Nat × Nat × Bool := xtoiLoop s 0 0

/-- Go `net.IPv4(a, b, c, d)`: the 16-byte form of the IPv4 address. -/
def IPv4 (a b c d : Byte) : Bytes :=
  [0, 0, 0, 0, 0, 0, 0, 0, 0, 0, 0xff, 0xff, a, b, c, d]

/-- The loop of `parseIPv4` over the fields still to read (`first` says that
the loop counter is `0`): the bytes read and the rest of the string. -/
def parseIPv4Loop : Nat → Bool → Bytes → Option (Bytes × Bytes)
  | 0, _, s => some ([], s)
  | k + 1, first, s =>
    if s.length = 0 then none
    else
      let afterDot : Option Bytes :=
        if first then some s
        else
          match s with
          | c :: r => if c ≠ 46 then none else some r
          | [] => none
      match afterDot with
      | none => none
      | some s1 =>
        match dtoi s1 with
        | (n, c, ok) =>
          if !ok || n > 0xFF then none
          else if c > 1 ∧ s1.head? = some 48 then none
          else
            match parseIPv4Loop k false (s1.drop c) with
            | none => none
            | some (p, rest) => some (Fin.ofNat n :: p, rest)

/-- Go `parseIPv4(s)`. -/
def parseIPv4 (s : Bytes) : Option Bytes :=
  match parseIPv4Loop 4 true s with
  | some ([p0, p1, p2, p3], rest) => if rest.length ≠ 0 then none else some (IPv4 p0 p1 p2 p3)
  | _ => none

/-- The main loop `for i < IPv6len` of `parseIPv6`, on the state
`(ip, i, s, ellipsis)`; it yields the state at the exit of the loop, or `none`
where the function returns nil.  Every iteration advances `i` by two or leaves
the loop, so eight iterations are all there can be. -/
def parseIPv6Loop : Nat → Bytes → Nat → Bytes → Int → Option (Bytes × Nat × Bytes × Int)
  | 0, ip, i, s, ellipsis => if i < 16 then none else some (ip, i, s, ellipsis)
  | fuel + 1, ip, i, s, ellipsis =>
    if ¬ i < 16 then some (ip, i, s, ellipsis)
    else
      match xtoi s with
      | (n, c, ok) =>
        if !ok || n > 0xFFFF then none
        else if c < s.length ∧ s[c]? = some 46 then
          if ellipsis < 0 ∧ i ≠ 16 - 4 then none
          else if i + 4 > 16 then none
          else
            match parseIPv4 s with
            | none => none
            | some ip4 =>
              let ip := ip.set i (ip4.getD 12 0)
              let ip := ip.set (i + 1) (ip4.getD 13 0)
              let ip := ip.set (i + 2) (ip4.getD 14 0)
              let ip := ip.set (i + 3) (ip4.getD 15 0)
              some (ip, i + 4, [], ellipsis)
        else
          let ip := ip.set i (Fin.ofNat (n >>> 8))
          let ip := ip.set (i + 1) (Fin.ofNat n)
          let i := i + 2
          let s := s.drop c
          if s.length = 0 then some (ip, i, s, ellipsis)
          else if s.head? ≠ some 58 ∨ s.length = 1 then none
          else
            let s := s.drop 1
            if s.head? = some 58 then
              if ellipsis ≥ 0 then none
              else
                let ellipsis : Int := i
                let s := s.drop 1
                if s.length = 0 then some (ip, i, s, ellipsis)
                else parseIPv6Loop fuel ip i s ellipsis
            else parseIPv6Loop fuel ip i s ellipsis

/-- Go `parseIPv6(s)`. -/
def parseIPv6 (s : Bytes) : Option Bytes :=
  let ip : Bytes := List.replicate 16 0
  let lead : Bool := s.length ≥ 2 ∧ s[0]? = some 58 ∧ s[1]? = some 58
  let ellipsis : Int := if lead then 0 else -1
  let s := if lead then s.drop 2 else s
  if lead ∧ s.length = 0 then some ip
  else
    match parseIPv6Loop 8 ip 0 s ellipsis with
    | none => none
    | some (ip, i, s, ellipsis) =>
      if s.length ≠ 0 then none
      else if i < 16 then
        if ellipsis < 0 then none
        else
          let e := ellipsis.toNat
          let n := 16 - i
          -- for j := i - 1; j >= ellipsis; j-- { ip[j+n] = ip[j] }
          let ip := ((List.range' e (i - e)).reverse).foldl
            (fun ip j => ip.set (j + n) (ip.getD j 0)) ip
          -- for j := ellipsis + n - 1; j >= ellipsis; j-- { ip[j] = 0 }
          let ip := ((List.range' e n).reverse).foldl (fun ip j => ip.set j 0) ip
          some ip
      else if ellipsis ≥ 0 then none
      else some ip

/-- Go `net.ParseIP(s)`: the first `'.'` or `':'` of the string decides
between the two parsers; a string with neither is not an address. -/
def ParseIP (s : Bytes) : Option Bytes :=
  match s.find? (fun c => c = 46 ∨ c = 58) with
  | none => none
  | some c => if c = 46 then parseIPv4 s else parseIPv6 s

/-- Go `ip.To4()`: the 4-byte form of an IPv4 address, nil (`none`) for
anything else. -/
def To4 (ip : Bytes) : Option Bytes :=
  if ip.length = 4 then some ip
  else if ip.length = 16 ∧ (ip.take 10).all (fun b => b = 0) ∧ ip[10]? = some 0xff ∧
      ip[11]? = some 0xff then some ((ip.drop 12).take 4)
  else none

/-- The error values of the package. -/
inductive Error where
  | ErrInvalidIp
deriving DecidableEq

/-- The method `Locator.Find`: `none` when it panics, `some (.error e)` when it
returns the error `e` (and a nil record), `some (.ok info)` when it returns the
record `info` and a nil error.  `[]byte(ip.To4())` of a nil `IP` is the empty
slice. -/
def Find (loc : Locator) (ipstr : Bytes) : Option (Except Error LocationInfo) :=
  match ParseIP ipstr with
  | none => some (.error Error.ErrInvalidIp)
  | some ip =>
    match bigEndianUint32 ((To4 ip).getD []) with
    | none => none
    | some v =>
      match FindByUint loc v with
      | none => none
      | some info => some (.ok info)

/-! ## The stored table

The layout of the database image, for stating what the loader keeps of it. -/

/-- The upper bound that the buffer stores for row `i`: the big-endian u32 of
bytes `[1028+8i, 1032+8i)` (`0` if the buffer ends before). -/
def storedUpperBound (data : Slice) (i : Nat) : Nat :=
  (bigEndianUint32 ((data.mem.drop (1028 + 8 * i)).take 4)).getD 0

/-! ## A search without the final check -/

/-- The plain lower-bound search, for comparison with `findIndexOffset`: the
same loop, returning its final `start` unconditionally, without the final
check of `indexData1[end]`. -/
def findIndexOffsetPlain (loc : Locator) (ip : Nat) (start : Int) : Option Int :=
  let end0 : Int := (loc.indexData1.length : Int) - 1
  match searchLoop loc.indexData1 ip loc.indexData1.length start end0 with
  | none => none
  | some (start, _) => some start

/-! ## The process-wide locator: `Init`, `InitWithData`, `NewLocator`

The package variable `std *Locator` is an `Option Locator`, `none` for nil.
`ioutil.ReadFile` is a parameter `readFile`, which yields the contents of the
file or an error of some type `E`. -/

/-- The function `NewLocator`: the locator and the error it returns, or `none`
when it panics. -/
def NewLocator {E : Type} (readFile : Bytes → Except E Slice) (dataFile : Bytes) :
    Option (Option Locator × Option E) :=
  match readFile dataFile with
  | .error err => some (none, some err)
  | .ok data =>
    match NewLocatorWithData data with
    | none => none
    | some loc => some (some loc, none)

/-- The function `Init`, run in a state where the package variable is `std`:
the new value of the package variable and the error returned, or `none` when
it panics. -/
def Init {E : Type} (readFile : Bytes → Except E Slice) (dataFile : Bytes)
    (std : Option Locator) : Option (Option Locator × Option E) :=
  match std with
  | some loc => some (some loc, none)
  | none => NewLocator readFile dataFile

/-- The function `InitWithData`, run in a state where the package variable is
`std`: the new value of the package variable, or `none` when it panics. -/
def InitWithData (data : Slice) (std : Option Locator) : Option (Option Locator) :=
  match std with
  | some loc => some (some loc)
  | none =>
    match NewLocatorWithData data with
    | none => none
    | some loc => some (some loc)

/-! ## Dotted-decimal text -/

/-- The decimal text of a number, as bytes. -/
def decimal (n : Nat) : Bytes := ascii (Nat.repr n)

/-- The dotted-decimal text `"a.b.c.d"` of four octets. -/
def dotted (a b c d : Nat) : Bytes :=
  decimal a ++ 46 :: (decimal b ++ 46 :: (decimal c ++ 46 :: decimal d))

/-! ## Example values -/

/-- A locator that holds only the given range-table column `indexData1`. -/
def tableLocator (tbl : List Nat) : Locator :=
  { textData := Slice.ofBytes [], indexData1 := tbl, indexData2 := [], indexData3 := [],
    index := [] }

/-- A small database image: header `textRegionStart = 2068`; 256 bucket
entries, `0` for the first octets `0..127` and `1` for `128..255`; two
range-table rows with upper bounds `0x7FFFFFFF` and `0xFFFFFFFF`; two text
records. -/
def exampleData : Slice :=
  Slice.ofBytes
    ([0, 0, 8, 20]
      ++ List.replicate 512 0
      ++ (List.replicate 128 [1, 0, 0, 0]).flatten
      ++ [127, 255, 255, 255, 0, 0, 0, 12]
      ++ [255, 255, 255, 255, 12, 0, 0, 11]
      ++ ascii "AA\tBB\t\tNet/x"
      ++ ascii "CC\tDD\tEE\tFF")

/-- The locator that `init` builds from `exampleData`. -/
def exampleLocator : Locator :=
  { textData := Slice.ofBytes (ascii "AA\tBB\t\tNet/x" ++ ascii "CC\tDD\tEE\tFF")
    indexData1 := [0x7FFFFFFF, 0xFFFFFFFF]
    indexData2 := [0, 12]
    indexData3 := [12, 11]
    index := List.replicate 128 0 ++ List.replicate 128 1 }

/-- A truncated database image of 1027 bytes in a buffer of capacity 1028 (a
file reader that allocates one byte more than the size of the file hands over
such a slice; the byte past the length is zero): header
`textRegionStart = 2051`; all bucket entries zero; no rows. -/
def truncatedData : Slice :=
  { mem := [0, 0, 8, 3] ++ List.replicate 1024 0
    len := 1027
    len_le := by rw [List.length_append, List.length_replicate]; decide }

/-- The text region that `init` cuts from `truncatedData`: `data[1027:]`, of
length 0 and capacity 1. -/
def truncatedLocatorText : Slice :=
  { mem := [0]
    len := 0
    len_le := by simp }

/-- A database image whose range table is empty: header
`textRegionStart = 2052`, all bucket entries zero, nothing else. -/
def emptyTableData : Slice :=
  Slice.ofBytes ([0, 0, 8, 4] ++ List.replicate 1024 0)

/-- The locator that `init` builds from `emptyTableData`. -/
def emptyTableLocator : Locator :=
  { textData := Slice.ofBytes []
    indexData1 := []
    indexData2 := []
    indexData3 := []
    index := List.replicate 256 0 }

/-- A database image with two rows whose upper bounds decrease: header
`textRegionStart = 2068`, all bucket entries zero, rows with upper bounds
`0xFFFFFFFF` and `0x7FFFFFFF` and empty texts. -/
def unsortedData : Slice :=
  Slice.ofBytes
    ([0, 0, 8, 20]
      ++ List.replicate 1024 0
      ++ [255, 255, 255, 255, 0, 0, 0, 0]
      ++ [127, 255, 255, 255, 0, 0, 0, 0])

/-- The locator that `init` builds from `unsortedData`. -/
def unsortedLocator : Locator :=
  { textData := Slice.ofBytes []
    indexData1 := [0xFFFFFFFF, 0x7FFFFFFF]
    indexData2 := [0, 0]
    indexData3 := [0, 0]
    index := List.replicate 256 0 }

/-! # Theorems -/

/-! ## Facts about the binary search -/

theorem getAt_eq_getD (tbl : List Nat) (i : Int) (h0 : 0 ≤ i) (h1 : i < (tbl.length : Int)) :
    getAt tbl i = some (tbl.getD i.toNat 0) := by
  have h2 : i.toNat < tbl.length := by omega
  simp [getAt, h0, List.getD, List.getElem?_eq_getElem h2]

/-- The loop exits with `start = end = r`, where `r` lies in the initial
interval, every move of `start` was justified by a row below `ip`, and every
move of `end` by a row not below `ip`.  No order on the table is assumed. -/
theorem searchLoop_exit (tbl : List Nat) (ip : Nat) :
    ∀ (fuel : Nat) (start end_ : Int), 0 ≤ start → start ≤ end_ →
      end_ < (tbl.length : Int) → end_ - start ≤ (fuel : Int) →
      ∃ r : Int, searchLoop tbl ip fuel start end_ = some (r, r) ∧ start ≤ r ∧ r ≤ end_ ∧
        (r = start ∨ tbl.getD (r - 1).toNat 0 < ip) ∧
        (r = end_ ∨ ip ≤ tbl.getD r.toNat 0) := by
  intro fuel
  induction fuel with
  | zero =>
    intro start end_ h0 h1 h2 h3
    have h4 : start = end_ := by omega
    subst h4
    exact ⟨start, by simp [searchLoop], le_refl _, le_refl _, Or.inl rfl, Or.inl rfl⟩
  | succ n ih =>
    intro start end_ h0 h1 h2 h3
    by_cases hlt : start < end_
    · have hmid : (start + end_).tdiv 2 = (start + end_) / 2 :=
        Int.tdiv_eq_ediv (by omega) (by omega)
      have hm0 : start ≤ (start + end_) / 2 := by omega
      have hm1 : (start + end_) / 2 < end_ := by omega
      have hget := getAt_eq_getD tbl ((start + end_) / 2) (by omega) (by omega)
      by_cases hip : ip > tbl.getD ((start + end_) / 2).toNat 0
      · obtain ⟨r, hr, ha, hb, hc, hd⟩ :=
          ih ((start + end_) / 2 + 1) end_ (by omega) (by omega) h2 (by omega)
        refine ⟨r, ?_, by omega, hb, ?_, hd⟩
        · simp only [searchLoop, hlt, if_true, hmid, hget, hip]
          exact hr
        · rcases hc with hc | hc
          · right
            have : r - 1 = (start + end_) / 2 := by omega
            rw [this]
            exact hip
          · exact Or.inr hc
      · obtain ⟨r, hr, ha, hb, hc, hd⟩ :=
          ih start ((start + end_) / 2) h0 hm0 (by omega) (by omega)
        refine ⟨r, ?_, ha, by omega, hc, ?_⟩
        · simp only [searchLoop, hlt, if_true, hmid, hget, hip, if_false]
          exact hr
        · rcases hd with hd | hd
          · right
            rw [hd]
            omega
          · exact Or.inr hd
    · have h4 : start = end_ := by omega
      subst h4
      exact ⟨start, by simp [searchLoop], le_refl _, le_refl _, Or.inl rfl, Or.inl rfl⟩

/-- What `findIndexOffset` returns on a non-empty table when `start` is a row
index, with no order on the table assumed: a row `r` in `[start, last]` such
that the row before it (if past `start`) is below `ip` and the row itself (if
before `last`) is not below `ip`. -/
theorem findIndexOffset_exit (loc : Locator) (ip : Nat) (start : Int)
    (h0 : 0 ≤ start) (h1 : start ≤ (loc.indexData1.length : Int) - 1) :
    ∃ r : Int, findIndexOffset loc ip start = some r ∧ start ≤ r ∧
      r ≤ (loc.indexData1.length : Int) - 1 ∧
      (r = start ∨ loc.indexData1.getD (r - 1).toNat 0 < ip) ∧
      (r = (loc.indexData1.length : Int) - 1 ∨ ip ≤ loc.indexData1.getD r.toNat 0) := by
  obtain ⟨r, hr, ha, hb, hc, hd⟩ :=
    searchLoop_exit loc.indexData1 ip loc.indexData1.length start
      ((loc.indexData1.length : Int) - 1) h0 h1 (by omega) (by omega)
  refine ⟨r, ?_, ha, hb, hc, hd⟩
  have hget := getAt_eq_getD loc.indexData1 r (by omega) (by omega)
  simp only [findIndexOffset, hr, hget]
  split <;> rfl

/-- In a non-decreasing table, entries at ordered positions are ordered. -/
theorem getD_mono (tbl : List Nat) (hs : tbl.Pairwise (· ≤ ·)) (i j : Nat)
    (hij : i ≤ j) (hj : j < tbl.length) : tbl.getD i 0 ≤ tbl.getD j 0 := by
  have hi : i < tbl.length := by omega
  rw [List.getD_eq_getElem tbl 0 hi, List.getD_eq_getElem tbl 0 hj]
  rcases Nat.lt_or_eq_of_le hij with h | h
  · exact (List.pairwise_iff_getElem.mp hs) i j hi hj h
  · subst h; exact le_refl _

/-- On a non-decreasing non-empty table, from a row index `start` such that
some row at or after `start` is not below `ip`, `findIndexOffset` returns the
least row at or after `start` that is not below `ip`. -/
theorem findIndexOffset_least (loc : Locator) (ip : Nat) (start : Int)
    (hs : loc.indexData1.Pairwise (· ≤ ·))
    (h0 : 0 ≤ start) (h1 : start ≤ (loc.indexData1.length : Int) - 1)
    (hex : ∃ j : Nat, start ≤ (j : Int) ∧ j < loc.indexData1.length ∧
      ip ≤ loc.indexData1.getD j 0) :
    ∃ r : Nat, findIndexOffset loc ip start = some (r : Int) ∧ start ≤ (r : Int) ∧
      r < loc.indexData1.length ∧ ip ≤ loc.indexData1.getD r 0 ∧
      ∀ j : Nat, start ≤ (j : Int) → j < r → loc.indexData1.getD j 0 < ip := by
  obtain ⟨r, hr, ha, hb, hc, hd⟩ := findIndexOffset_exit loc ip start h0 h1
  obtain ⟨j, hj0, hj1, hj2⟩ := hex
  have hrn : ((r.toNat : Nat) : Int) = r := by omega
  refine ⟨r.toNat, by rw [hrn]; exact hr, by omega, by omega, ?_, ?_⟩
  · rcases hd with hd | hd
    · have hjr : j ≤ r.toNat := by omega
      exact le_trans hj2 (getD_mono _ hs j r.toNat hjr (by omega))
    · exact hd
  · intro k hk0 hk1
    rcases hc with hc | hc
    · omega
    · have hkr : k ≤ (r - 1).toNat := by omega
      exact lt_of_le_of_lt (getD_mono _ hs k (r - 1).toNat hkr (by omega)) hc

/-! ## Claims about the binary search -/

/-- C1: `findIndexOffset` is a lower-bound search.  For every locator whose
`indexData1` is non-decreasing, every `ip` and every `start` with
`0 <= start <= last row index`, if some row at or after `start` has
`upperBound >= ip`, then `findIndexOffset(ip, start)` returns a row index `r`,
and `r` is the least row index at or after `start` with `indexData1[r] >= ip`. -/
theorem C1_findIndexOffset_lower_bound (loc : Locator) (ip : Nat) (start : Int)
    (hsorted : loc.indexData1.Pairwise (· ≤ ·))
    (hstart0 : 0 ≤ start) (hstart1 : start ≤ (loc.indexData1.length : Int) - 1)
    (hex : ∃ j : Nat, start ≤ (j : Int) ∧ j < loc.indexData1.length ∧
      ip ≤ loc.indexData1.getD j 0) :
    ∃ r : Nat, findIndexOffset loc ip start = some (r : Int) ∧ start ≤ (r : Int) ∧
      r < loc.indexData1.length ∧ ip ≤ loc.indexData1.getD r 0 ∧
      ∀ j : Nat, start ≤ (j : Int) → j < r → loc.indexData1.getD j 0 < ip :=
  findIndexOffset_least loc ip start hsorted hstart0 hstart1 hex

theorem C1_findIndexOffset_lower_bound_witness :
    ∃ r : Nat, findIndexOffset (tableLocator [10, 20, 20, 30, 40]) 15 1 = some (r : Int) ∧
      (1 : Int) ≤ (r : Int) ∧
      r < (tableLocator [10, 20, 20, 30, 40]).indexData1.length ∧
      15 ≤ (tableLocator [10, 20, 20, 30, 40]).indexData1.getD r 0 ∧
      ∀ j : Nat, (1 : Int) ≤ (j : Int) → j < r →
        (tableLocator [10, 20, 20, 30, 40]).indexData1.getD j 0 < 15 :=
  C1_findIndexOffset_lower_bound (tableLocator [10, 20, 20, 30, 40]) 15 1
    (by decide) (by decide) (by decide) ⟨3, by decide, by decide, by decide⟩

/-- C2: the byte-bucket start is a pure pruning optimisation.  For every
locator whose `indexData1` is non-decreasing, every `ip` not above the last
row's `upperBound`, and every row index `start <= last` such that `start = 0`
or the row at `start - 1` has `upperBound < ip`, `findIndexOffset(ip, start)`
returns the first row of the whole table with `upperBound >= ip`, which is
also what `findIndexOffset(ip, 0)` returns. -/
theorem C2_bucket_start_is_pruning (loc : Locator) (ip : Nat) (start : Nat)
    (hsorted : loc.indexData1.Pairwise (· ≤ ·))
    (hlast : ∃ v, loc.indexData1.getLast? = some v ∧ ip ≤ v)
    (hstart : start < loc.indexData1.length)
    (hprev : start = 0 ∨ loc.indexData1.getD (start - 1) 0 < ip) :
    ∃ r : Nat, findIndexOffset loc ip (start : Int) = some (r : Int) ∧
      findIndexOffset loc ip 0 = some (r : Int) ∧
      r < loc.indexData1.length ∧ ip ≤ loc.indexData1.getD r 0 ∧
      ∀ j : Nat, j < r → loc.indexData1.getD j 0 < ip := by
  obtain ⟨v, hv, hipv⟩ := hlast
  have hlastD : ip ≤ loc.indexData1.getD (loc.indexData1.length - 1) 0 := by
    rw [List.getLast?_eq_getElem?] at hv
    rw [List.getD_eq_getElem?_getD, hv]
    exact hipv
  have hex : ∀ s : Int, s ≤ (loc.indexData1.length : Int) - 1 →
      ∃ j : Nat, s ≤ (j : Int) ∧ j < loc.indexData1.length ∧
        ip ≤ loc.indexData1.getD j 0 :=
    fun s hs => ⟨loc.indexData1.length - 1, by omega, by omega, hlastD⟩
  obtain ⟨r, hr, ha, hb, hc, hd⟩ :=
    findIndexOffset_least loc ip (start : Int) hsorted (by omega) (by omega)
      (hex _ (by omega))
  obtain ⟨r0, hr0, ha0, hb0, hc0, hd0⟩ :=
    findIndexOffset_least loc ip 0 hsorted (le_refl _) (by omega) (hex _ (by omega))
  have hbelow : ∀ j : Nat, j < r → loc.indexData1.getD j 0 < ip := by
    intro j hj
    by_cases hjs : start ≤ j
    · exact hd j (by omega) hj
    · rcases hprev with hp | hp
      · omega
      · exact lt_of_le_of_lt (getD_mono _ hsorted j (start - 1) (by omega) (by omega)) hp
  have hrr0 : r0 = r := by
    rcases Nat.lt_trichotomy r0 r with h | h | h
    · have := hbelow r0 h
      omega
    · exact h
    · have := hd0 r (by omega) h
      omega
  refine ⟨r, hr, ?_, hb, hc, hbelow⟩
  rw [← hrr0]
  exact hr0

theorem C2_bucket_start_is_pruning_witness :
    ∃ r : Nat, findIndexOffset (tableLocator [10, 20, 20, 30, 40]) 25 ((2 : Nat) : Int)
        = some (r : Int) ∧
      findIndexOffset (tableLocator [10, 20, 20, 30, 40]) 25 0 = some (r : Int) ∧
      r < (tableLocator [10, 20, 20, 30, 40]).indexData1.length ∧
      25 ≤ (tableLocator [10, 20, 20, 30, 40]).indexData1.getD r 0 ∧
      ∀ j : Nat, j < r → (tableLocator [10, 20, 20, 30, 40]).indexData1.getD j 0 < 25 :=
  C2_bucket_start_is_pruning (tableLocator [10, 20, 20, 30, 40]) 25 2
    (by decide) ⟨40, by decide, by decide⟩ (by decide) (Or.inr (by decide))

/-! ## Facts about the record decoder -/

theorem bytesSplit_ne_nil (sep : Byte) (s : Bytes) : bytesSplit sep s ≠ [] := by
  induction s with
  | nil => simp [bytesSplit]
  | cons b rest ih =>
    unfold bytesSplit
    split
    · simp
    · split <;> simp

theorem bytesSplit_length (sep : Byte) (s : Bytes) :
    (bytesSplit sep s).length = s.count sep + 1 := by
  induction s with
  | nil => simp [bytesSplit]
  | cons b rest ih =>
    unfold bytesSplit
    by_cases hb : b = sep
    · subst hb
      simp [ih]
    · have hc : (b :: rest).count sep = rest.count sep := by
        rw [List.count_cons]
        simp [hb]
      rw [if_neg hb, hc, ← ih]
      split
      · rename_i h
        exact absurd h (bytesSplit_ne_nil sep rest)
      · rename_i f fs h
        simp [h]

/-- A field without separator, followed by a separator, is the first field of
the split. -/
theorem bytesSplit_append (sep : Byte) (f rest : Bytes) (hf : sep ∉ f) :
    bytesSplit sep (f ++ sep :: rest) = f :: bytesSplit sep rest := by
  induction f with
  | nil => simp [bytesSplit]
  | cons b f ih =>
    have hb : b ≠ sep := fun h => hf (by simp [h])
    have hf1 : sep ∉ f := fun h => hf (List.mem_cons_of_mem _ h)
    show bytesSplit sep (b :: (f ++ sep :: rest)) = (b :: f) :: bytesSplit sep rest
    rw [bytesSplit, if_neg hb, ih hf1]

/-- A string without separator is the only field of its split. -/
theorem bytesSplit_single (sep : Byte) (f : Bytes) (hf : sep ∉ f) :
    bytesSplit sep f = [f] := by
  induction f with
  | nil => simp [bytesSplit]
  | cons b f ih =>
    have hb : b ≠ sep := fun h => hf (by simp [h])
    have hf1 : sep ∉ f := fun h => hf (List.mem_cons_of_mem _ h)
    simp only [bytesSplit, if_neg hb, ih hf1]

/-- Four fields without separator, joined by separators, split into
themselves. -/
theorem bytesSplit_four (sep : Byte) (f0 f1 f2 f3 : Bytes)
    (h0 : sep ∉ f0) (h1 : sep ∉ f1) (h2 : sep ∉ f2) (h3 : sep ∉ f3) :
    bytesSplit sep (f0 ++ sep :: (f1 ++ sep :: (f2 ++ sep :: f3))) = [f0, f1, f2, f3] := by
  rw [bytesSplit_append sep f0 _ h0, bytesSplit_append sep f1 _ h1,
    bytesSplit_append sep f2 _ h2, bytesSplit_single sep f3 h3]

/-- Cutting a string at `strings.Index` (when it is not `-1`) keeps the part
before the first separator. -/
theorem stringsIndex_take (sep : Byte) (s : Bytes) :
    -1 ≤ stringsIndex sep s ∧
      (if stringsIndex sep s ≠ -1 then s.take (stringsIndex sep s).toNat else s)
        = s.takeWhile (fun b => b ≠ sep) := by
  induction s with
  | nil => simp [stringsIndex]
  | cons b rest ih =>
    obtain ⟨ih1, ih2⟩ := ih
    by_cases hb : b = sep
    · subst hb
      simp [stringsIndex]
    · by_cases hr : stringsIndex sep rest = -1
      · simp only [hr, ne_eq, not_true_eq_false, if_false, decide_not] at ih2
        simp [stringsIndex, hb, hr, ← ih2]
      · have hr0 : 0 ≤ stringsIndex sep rest := by omega
        have hne : stringsIndex sep rest + 1 ≠ -1 := by omega
        have htn : (stringsIndex sep rest + 1).toNat = (stringsIndex sep rest).toNat + 1 := by
          omega
        simp only [ne_eq, hr, not_false_eq_true, if_true, decide_not] at ih2
        refine ⟨by simp only [stringsIndex, if_neg hb, if_neg hr]; omega, ?_⟩
        simp [stringsIndex, hb, hr, hne, htn, ih2]

theorem Null_ne_nil : Null ≠ [] := by decide

theorem unknown_ne_nil : unknown ≠ [] := by decide

/-- The decoder on a record of four fields. -/
theorem newLocationInfo_four (str f0 f1 f2 f3 : Bytes)
    (h : bytesSplit tab str = [f0, f1, f2, f3]) :
    newLocationInfo str =
      { Country := if f0 = [] then Null else f0
        Region := if f1 = [] then Null else f1
        City := if f2 = [] then Null else f2
        Isp := if f3.takeWhile (fun b => b ≠ slash) = [] then Null
               else f3.takeWhile (fun b => b ≠ slash) } := by
  have ht := (stringsIndex_take slash f3).2
  simp only [newLocationInfo, h, List.length_eq_zero, ht]

/-- The decoder on a record that does not have four fields. -/
theorem newLocationInfo_malformed (str : Bytes) (h : (bytesSplit tab str).length ≠ 4) :
    newLocationInfo str =
      { Country := unknown, Region := unknown, City := unknown, Isp := unknown } := by
  unfold newLocationInfo
  split
  · rename_i f0 f1 f2 f3 heq
    rw [heq] at h
    simp at h
  · rfl

/-- No field of a decoded record is empty. -/
theorem newLocationInfo_fields_ne_nil (str : Bytes) :
    (newLocationInfo str).Country ≠ [] ∧ (newLocationInfo str).Region ≠ [] ∧
      (newLocationInfo str).City ≠ [] ∧ (newLocationInfo str).Isp ≠ [] := by
  have hN := Null_ne_nil
  have hU := unknown_ne_nil
  by_cases h4 : (bytesSplit tab str).length = 4
  · rcases hsplit : bytesSplit tab str with _ | ⟨f0, _ | ⟨f1, _ | ⟨f2, _ | ⟨f3, _ | ⟨f4, t⟩⟩⟩⟩⟩
    all_goals rw [hsplit] at h4
    all_goals try (simp at h4)
    rw [newLocationInfo_four str f0 f1 f2 f3 hsplit]
    refine ⟨?_, ?_, ?_, ?_⟩ <;> dsimp only <;> split <;> assumption
  · rw [newLocationInfo_malformed str h4]
    exact ⟨hU, hU, hU, hU⟩

/-! ## Claims about the record decoder -/

/-- C3: malformed record fallback.  For every byte slice that does not contain
exactly 3 tab bytes (so that it does not split on the tab byte into exactly 4
fields), `newLocationInfo` returns a record whose `Country`, `Region`, `City`
and `Isp` all equal `"unknown"`. -/
theorem C3_malformed_record_fallback (str : Bytes) (h : str.count tab ≠ 3) :
    newLocationInfo str =
      { Country := unknown, Region := unknown, City := unknown, Isp := unknown } := by
  apply newLocationInfo_malformed
  rw [bytesSplit_length]
  omega

theorem C3_malformed_record_fallback_witness :
    newLocationInfo (ascii "China\tBeijing") =
        { Country := unknown, Region := unknown, City := unknown, Isp := unknown } ∧
      newLocationInfo [] =
        { Country := unknown, Region := unknown, City := unknown, Isp := unknown } :=
  ⟨C3_malformed_record_fallback (ascii "China\tBeijing") (by decide),
    C3_malformed_record_fallback [] (by decide)⟩

/-- C4: empty-field substitution.  For every byte slice made of exactly four
tab-delimited fields `f0`, `f1`, `f2`, `f3` (none of which holds a tab byte),
`newLocationInfo` returns `Country`, `Region` and `City` equal to `f0`, `f1`
and `f2`, except that each of them that is empty is replaced by `"N/A"`. -/
theorem C4_empty_field_substitution (f0 f1 f2 f3 : Bytes)
    (h0 : tab ∉ f0) (h1 : tab ∉ f1) (h2 : tab ∉ f2) (h3 : tab ∉ f3) :
    (newLocationInfo (f0 ++ tab :: (f1 ++ tab :: (f2 ++ tab :: f3)))).Country
        = (if f0 = [] then Null else f0) ∧
      (newLocationInfo (f0 ++ tab :: (f1 ++ tab :: (f2 ++ tab :: f3)))).Region
        = (if f1 = [] then Null else f1) ∧
      (newLocationInfo (f0 ++ tab :: (f1 ++ tab :: (f2 ++ tab :: f3)))).City
        = (if f2 = [] then Null else f2) := by
  rw [newLocationInfo_four _ f0 f1 f2 f3 (bytesSplit_four tab f0 f1 f2 f3 h0 h1 h2 h3)]
  exact ⟨rfl, rfl, rfl⟩

theorem C4_empty_field_substitution_witness :
    (newLocationInfo (ascii "\tRegionX\tCityY\tIspZ")).Country = ascii "N/A" ∧
      (newLocationInfo (ascii "\tRegionX\tCityY\tIspZ")).Region = ascii "RegionX" ∧
      (newLocationInfo (ascii "\tRegionX\tCityY\tIspZ")).City = ascii "CityY" :=
  C4_empty_field_substitution [] (ascii "RegionX") (ascii "CityY") (ascii "IspZ")
    (by decide) (by decide) (by decide) (by decide)

/-- C5: ISP truncation.  For every byte slice made of exactly four
tab-delimited fields, the `Isp` returned by `newLocationInfo` is the fourth
field cut just before its first `'/'` (the whole field if it has no `'/'`),
and is `"N/A"` when that text is empty. -/
theorem C5_isp_truncation (f0 f1 f2 f3 : Bytes)
    (h0 : tab ∉ f0) (h1 : tab ∉ f1) (h2 : tab ∉ f2) (h3 : tab ∉ f3) :
    (newLocationInfo (f0 ++ tab :: (f1 ++ tab :: (f2 ++ tab :: f3)))).Isp
      = (if f3.takeWhile (fun b => b ≠ slash) = [] then Null
         else f3.takeWhile (fun b => b ≠ slash)) := by
  rw [newLocationInfo_four _ f0 f1 f2 f3 (bytesSplit_four tab f0 f1 f2 f3 h0 h1 h2 h3)]

theorem C5_isp_truncation_witness :
    (newLocationInfo (ascii "C\tR\tT\tExampleISP/some-suffix")).Isp = ascii "ExampleISP" :=
  C5_isp_truncation (ascii "C") (ascii "R") (ascii "T") (ascii "ExampleISP/some-suffix")
    (by decide) (by decide) (by decide) (by decide)

/-- C6: for every byte slice whatsoever, `newLocationInfo` yields a record (it
is a total function: no path of it can panic), and none of the four fields
`Country`, `Region`, `City`, `Isp` of that record is the empty string. -/
theorem C6_fields_never_empty (str : Bytes) :
    (newLocationInfo str).Country ≠ [] ∧ (newLocationInfo str).Region ≠ [] ∧
      (newLocationInfo str).City ≠ [] ∧ (newLocationInfo str).Isp ≠ [] :=
  newLocationInfo_fields_ne_nil str

/-! ## Facts about address parsing -/

set_option maxRecDepth 100000 in
/-- The decimal text of an octet: `dtoi` reads it back whole, it is not empty,
it has no leading zero unless it is `"0"`, and it holds no `'.'` or `':'`. -/
theorem decimal_octet : ∀ n : Nat, n < 256 →
    dtoi (decimal n) = (n, (decimal n).length, true) ∧ decimal n ≠ [] ∧
      ¬ ((decimal n).length > 1 ∧ (decimal n).head? = some 48) ∧
      (decimal n).find? (fun c => c = 46 ∨ c = 58) = none := by
  decide

/-- The loop of `dtoi` stops at the end of the string and at a `'.'` alike. -/
theorem dtoiLoop_append (rest : Bytes) (hrest : rest = [] ∨ ∃ r, rest = 46 :: r) :
    ∀ (ds : Bytes) (n i : Nat), dtoiLoop (ds ++ rest) n i = dtoiLoop ds n i := by
  intro ds
  induction ds with
  | nil =>
    intro n i
    rcases hrest with h | ⟨r, h⟩
    · subst h; rfl
    · subst h
      show dtoiLoop (46 :: r) n i = dtoiLoop [] n i
      rw [dtoiLoop, dtoiLoop, if_neg (by decide)]
  | cons c ds ih =>
    intro n i
    show dtoiLoop (c :: (ds ++ rest)) n i = dtoiLoop (c :: ds) n i
    simp only [dtoiLoop, ih]

/-- One field of `parseIPv4`, at the start of the string. -/
theorem parseIPv4Loop_first (k n : Nat) (rest : Bytes) (hn : n < 256)
    (hrest : rest = [] ∨ ∃ r, rest = 46 :: r) :
    parseIPv4Loop (k + 1) true (decimal n ++ rest) =
      match parseIPv4Loop k false rest with
      | none => none
      | some (p, r) => some (Fin.ofNat n :: p, r) := by
  obtain ⟨h1, h2, h3, _⟩ := decimal_octet n hn
  have hd : dtoi (decimal n ++ rest) = (n, (decimal n).length, true) := by
    unfold dtoi at h1 ⊢
    rw [dtoiLoop_append rest hrest, h1]
  have hlen : (decimal n ++ rest).length ≠ 0 := by
    simp [h2]
  have hhead : (decimal n ++ rest).head? = (decimal n).head? := by
    cases hdn : decimal n with
    | nil => exact absurd hdn h2
    | cons x xs => rfl
  have hn' : ¬ n > 255 := by omega
  simp only [parseIPv4Loop, if_neg hlen, if_true, hd, hhead, if_neg h3, List.drop_left,
    Bool.not_true, Bool.false_or, decide_eq_true_eq, if_neg hn']

/-- One field of `parseIPv4`, after a `'.'`. -/
theorem parseIPv4Loop_next (k n : Nat) (rest : Bytes) (hn : n < 256)
    (hrest : rest = [] ∨ ∃ r, rest = 46 :: r) :
    parseIPv4Loop (k + 1) false (46 :: (decimal n ++ rest)) =
      match parseIPv4Loop k false rest with
      | none => none
      | some (p, r) => some (Fin.ofNat n :: p, r) := by
  obtain ⟨h1, h2, h3, _⟩ := decimal_octet n hn
  have hd : dtoi (decimal n ++ rest) = (n, (decimal n).length, true) := by
    unfold dtoi at h1 ⊢
    rw [dtoiLoop_append rest hrest, h1]
  have hhead : (decimal n ++ rest).head? = (decimal n).head? := by
    cases hdn : decimal n with
    | nil => exact absurd hdn h2
    | cons x xs => rfl
  have hn' : ¬ n > 255 := by omega
  simp [parseIPv4Loop, hd, hhead, h3, hn']

/-- `parseIPv4` reads a dotted-decimal text back. -/
theorem parseIPv4_dotted (a b c d : Nat) (ha : a < 256) (hb : b < 256) (hc : c < 256)
    (hd : d < 256) :
    parseIPv4 (dotted a b c d) =
      some (IPv4 (Fin.ofNat a) (Fin.ofNat b) (Fin.ofNat c) (Fin.ofNat d)) := by
  have e4 : parseIPv4Loop 1 false (46 :: (decimal d ++ [])) = some ([Fin.ofNat d], []) := by
    rw [parseIPv4Loop_next 0 d [] hd (Or.inl rfl)]
    rfl
  rw [List.append_nil] at e4
  have e3 : parseIPv4Loop 2 false (46 :: (decimal c ++ 46 :: decimal d))
      = some ([Fin.ofNat c, Fin.ofNat d], []) := by
    rw [parseIPv4Loop_next 1 c _ hc (Or.inr ⟨_, rfl⟩), e4]
  have e2 : parseIPv4Loop 3 false (46 :: (decimal b ++ 46 :: (decimal c ++ 46 :: decimal d)))
      = some ([Fin.ofNat b, Fin.ofNat c, Fin.ofNat d], []) := by
    rw [parseIPv4Loop_next 2 b _ hb (Or.inr ⟨_, rfl⟩), e3]
  have e1 : parseIPv4Loop 4 true (dotted a b c d)
      = some ([Fin.ofNat a, Fin.ofNat b, Fin.ofNat c, Fin.ofNat d], []) := by
    unfold dotted
    rw [parseIPv4Loop_first 3 a _ ha (Or.inr ⟨_, rfl⟩), e2]
  simp [parseIPv4, e1]

/-- `net.ParseIP` reads a dotted-decimal text back. -/
theorem ParseIP_dotted (a b c d : Nat) (ha : a < 256) (hb : b < 256) (hc : c < 256)
    (hd : d < 256) :
    ParseIP (dotted a b c d) =
      some (IPv4 (Fin.ofNat a) (Fin.ofNat b) (Fin.ofNat c) (Fin.ofNat d)) := by
  obtain ⟨_, _, _, h4⟩ := decimal_octet a ha
  have hfind : (dotted a b c d).find? (fun c => c = 46 ∨ c = 58) = some 46 := by
    unfold dotted
    rw [List.find?_append, h4]
    rfl
  simp only [ParseIP, hfind, if_true]
  exact parseIPv4_dotted a b c d ha hb hc hd

/-- The big-endian value of four bytes, in arithmetic. -/
theorem bigEndianUint32_four (a b c d : Byte) :
    bigEndianUint32 [a, b, c, d]
      = some (a.val * 2 ^ 24 + b.val * 2 ^ 16 + c.val * 2 ^ 8 + d.val) := by
  have ha := a.isLt
  have hb := b.isLt
  have hc := c.isLt
  have hd := d.isLt
  have k1 : 2 ^ 8 * c.val + d.val = 2 ^ 8 * c.val ||| d.val :=
    Nat.mul_add_lt_is_or (by omega) _
  have k2 : 2 ^ 16 * b.val + (2 ^ 8 * c.val + d.val)
      = 2 ^ 16 * b.val ||| (2 ^ 8 * c.val + d.val) :=
    Nat.mul_add_lt_is_or (by omega) _
  have k3 : 2 ^ 24 * a.val + (2 ^ 16 * b.val + (2 ^ 8 * c.val + d.val))
      = 2 ^ 24 * a.val ||| (2 ^ 16 * b.val + (2 ^ 8 * c.val + d.val)) :=
    Nat.mul_add_lt_is_or (by omega) _
  have s1 : d.val ||| c.val <<< 8 = 2 ^ 8 * c.val + d.val := by
    rw [k1, Nat.shiftLeft_eq, Nat.lor_comm, Nat.mul_comm]
  have s2 : (2 ^ 8 * c.val + d.val) ||| b.val <<< 16
      = 2 ^ 16 * b.val + (2 ^ 8 * c.val + d.val) := by
    rw [k2, Nat.shiftLeft_eq, Nat.lor_comm, Nat.mul_comm]
  have s3 : (2 ^ 16 * b.val + (2 ^ 8 * c.val + d.val)) ||| a.val <<< 24
      = 2 ^ 24 * a.val + (2 ^ 16 * b.val + (2 ^ 8 * c.val + d.val)) := by
    rw [k3, Nat.shiftLeft_eq, Nat.lor_comm, Nat.mul_comm]
  simp only [bigEndianUint32, s1, s2, s3]
  congr 1
  omega

/-- The value of `binary.BigEndian.Uint32` fits in 32 bits. -/
theorem bigEndianUint32_lt (b : Bytes) (v : Nat) (h : bigEndianUint32 b = some v) :
    v < 2 ^ 32 := by
  rcases b with _ | ⟨b0, _ | ⟨b1, _ | ⟨b2, _ | ⟨b3, t⟩⟩⟩⟩
  · simp [bigEndianUint32] at h
  · simp [bigEndianUint32] at h
  · simp [bigEndianUint32] at h
  · simp [bigEndianUint32] at h
  · have h2 : bigEndianUint32 (b0 :: b1 :: b2 :: b3 :: t) = bigEndianUint32 [b0, b1, b2, b3] :=
      rfl
    rw [h2, bigEndianUint32_four] at h
    have := Option.some.inj h
    have h0 := b0.isLt
    have h1 := b1.isLt
    have h2 := b2.isLt
    have h3 := b3.isLt
    omega

/-- The value of `binary.LittleEndian.Uint32` fits in 32 bits. -/
theorem littleEndianUint32_lt (b : Bytes) (v : Nat) (h : littleEndianUint32 b = some v) :
    v < 2 ^ 32 := by
  rcases b with _ | ⟨b0, _ | ⟨b1, _ | ⟨b2, _ | ⟨b3, t⟩⟩⟩⟩
  · simp [littleEndianUint32] at h
  · simp [littleEndianUint32] at h
  · simp [littleEndianUint32] at h
  · simp [littleEndianUint32] at h
  · have h2 : littleEndianUint32 (b0 :: b1 :: b2 :: b3 :: t)
        = bigEndianUint32 [b3, b2, b1, b0] := rfl
    rw [h2] at h
    exact bigEndianUint32_lt _ v h

/-- A string that `net.ParseIP` does not accept is rejected by `Find`. -/
theorem Find_of_ParseIP_none (loc : Locator) (ipstr : Bytes) (h : ParseIP ipstr = none) :
    Find loc ipstr = some (.error Error.ErrInvalidIp) := by
  simp [Find, h]

/-- The malformed text `"not-an-ip"` and the empty string are rejected by
`Find` with `ErrInvalidIp`. -/
theorem Find_rejects_malformed (loc : Locator) :
    Find loc (ascii "not-an-ip") = some (.error Error.ErrInvalidIp) ∧
      Find loc (ascii "") = some (.error Error.ErrInvalidIp) :=
  ⟨Find_of_ParseIP_none loc _ (by decide), Find_of_ParseIP_none loc _ (by decide)⟩

/-! ## Claims about the textual lookup -/

/-- C7 (the code at the failing input): on the IPv6 literal `"::1"`, which is
not a parseable IPv4 address, `Find` does not return `ErrInvalidIp`:
`net.ParseIP` accepts the text, `To4` yields nil, and
`binary.BigEndian.Uint32` panics on the empty slice, whatever the locator. -/
theorem C7_Find_ipv6_literal_panics (loc : Locator) :
    ParseIP (ascii "::1") = some [0, 0, 0, 0, 0, 0, 0, 0, 0, 0, 0, 0, 0, 0, 0, 1] ∧
      To4 [0, 0, 0, 0, 0, 0, 0, 0, 0, 0, 0, 0, 0, 0, 0, 1] = none ∧
      Find loc (ascii "::1") = none := by
  have h1 : ParseIP (ascii "::1") = some [0, 0, 0, 0, 0, 0, 0, 0, 0, 0, 0, 0, 0, 0, 0, 1] := by
    decide
  have h2 : To4 [0, 0, 0, 0, 0, 0, 0, 0, 0, 0, 0, 0, 0, 0, 0, 1] = none := by decide
  refine ⟨h1, h2, ?_⟩
  simp only [Find, h1, h2]
  rfl

/-- C8: for every four octets `a`, `b`, `c`, `d` in `0..255`, `Find` on the
dotted-decimal text `"a.b.c.d"` returns no error, and its outcome is exactly
the outcome of `FindByUint` on the big-endian value
`a*2^24 + b*2^16 + c*2^8 + d`: the same record, or a panic where `FindByUint`
panics. -/
theorem C8_Find_dotted_decimal (loc : Locator) (a b c d : Nat)
    (ha : a < 256) (hb : b < 256) (hc : c < 256) (hd : d < 256) :
    Find loc (dotted a b c d)
        = (FindByUint loc (a * 2 ^ 24 + b * 2 ^ 16 + c * 2 ^ 8 + d)).map Except.ok ∧
      Find loc (dotted a b c d) ≠ some (.error Error.ErrInvalidIp) := by
  have hto4 : To4 (IPv4 (Fin.ofNat a) (Fin.ofNat b) (Fin.ofNat c) (Fin.ofNat d))
      = some [Fin.ofNat a, Fin.ofNat b, Fin.ofNat c, Fin.ofNat d] := by
    simp [To4, IPv4]
  have hval : ∀ n : Nat, n < 256 → (Fin.ofNat n : Byte).val = n := by
    intro n hn
    show n % 256 = n
    omega
  have hfind : Find loc (dotted a b c d)
      = (FindByUint loc (a * 2 ^ 24 + b * 2 ^ 16 + c * 2 ^ 8 + d)).map Except.ok := by
    have hbe := bigEndianUint32_four (Fin.ofNat a) (Fin.ofNat b) (Fin.ofNat c) (Fin.ofNat d)
    rw [hval a ha, hval b hb, hval c hc, hval d hd] at hbe
    simp only [Find, ParseIP_dotted a b c d ha hb hc hd, hto4, Option.getD_some]
    rw [hbe]
    dsimp only
    cases FindByUint loc (a * 2 ^ 24 + b * 2 ^ 16 + c * 2 ^ 8 + d) <;> rfl
  refine ⟨hfind, ?_⟩
  rw [hfind]
  cases FindByUint loc (a * 2 ^ 24 + b * 2 ^ 16 + c * 2 ^ 8 + d) <;> simp

theorem C8_Find_dotted_decimal_witness :
    Find exampleLocator (dotted 200 2 3 4)
        = (FindByUint exampleLocator (200 * 2 ^ 24 + 2 * 2 ^ 16 + 3 * 2 ^ 8 + 4)).map Except.ok ∧
      Find exampleLocator (dotted 200 2 3 4) ≠ some (.error Error.ErrInvalidIp) :=
  C8_Find_dotted_decimal exampleLocator 200 2 3 4 (by decide) (by decide) (by decide)
    (by decide)

/-! ## Facts about loading -/

theorem collect_eq_some {α : Type} :
    ∀ (l : List (Option α)) (r : List α), collect l = some r →
      r.length = l.length ∧
        ∀ i : Nat, i < l.length → ∃ a, l[i]? = some (some a) ∧ r[i]? = some a := by
  intro l
  induction l with
  | nil =>
    intro r h
    simp only [collect, Option.some.injEq] at h
    subst h
    exact ⟨rfl, fun i hi => absurd hi (Nat.not_lt_zero _)⟩
  | cons x xs ih =>
    intro r h
    unfold collect at h
    split at h
    · exact absurd h (by simp)
    · rename_i a
      split at h
      · exact absurd h (by simp)
      · rename_i as hxs
        simp only [Option.some.injEq] at h
        subst h
        obtain ⟨hl, hi⟩ := ih as hxs
        refine ⟨by simp [hl], ?_⟩
        intro i hlt
        cases i with
        | zero => exact ⟨a, by simp, by simp⟩
        | succ j =>
          obtain ⟨b, hb1, hb2⟩ := hi j (by simpa using hlt)
          exact ⟨b, by simpa using hb1, by simpa using hb2⟩

/-- What a loop `for i := 0; i < n; i++ { r[i] = f(i) }` leaves in `r` when no
iteration panics. -/
theorem collect_range {α : Type} (f : Nat → Option α) (n : Nat) (r : List α)
    (h : collect ((List.range n).map f) = some r) :
    r.length = n ∧ ∀ i : Nat, i < n → ∃ a, f i = some a ∧ r[i]? = some a := by
  obtain ⟨hl, hi⟩ := collect_eq_some _ r h
  refine ⟨by simpa using hl, ?_⟩
  intro i hlt
  obtain ⟨a, ha1, ha2⟩ := hi i (by simpa using hlt)
  refine ⟨a, ?_, ha2⟩
  simpa [List.getElem?_map, List.getElem?_range hlt] using ha1

theorem Slice.slice_eq_some (s t : Slice) (lo hi : Int) (h : s.slice lo hi = some t) :
    0 ≤ lo ∧ lo ≤ hi ∧ hi ≤ (s.mem.length : Int) ∧
      t.bytes = (s.mem.drop lo.toNat).take (hi.toNat - lo.toNat) ∧
      t.mem = s.mem.drop lo.toNat ∧ t.len = hi.toNat - lo.toNat := by
  unfold Slice.slice at h
  split at h
  · rename_i hc
    simp only [Option.some.injEq] at h
    subst h
    exact ⟨hc.1, hc.2.1, hc.2.2, rfl, rfl, rfl⟩
  · exact absurd h (by simp)

theorem Slice.index_eq_some (s : Slice) (i : Int) (b : Byte) (h : s.index i = some b) :
    0 ≤ i ∧ i < (s.len : Int) ∧ s.mem[i.toNat]? = some b := by
  unfold Slice.index at h
  split at h
  · rename_i hc
    exact ⟨hc.1, hc.2, h⟩
  · exact absurd h (by simp)

/-- A successful `binary.BigEndian.Uint32` on a slice of at most four bytes:
the slice has four bytes, and the result is their big-endian value. -/
theorem bigEndianUint32_eq_some (b : Bytes) (v : Nat) (hlen : b.length ≤ 4)
    (h : bigEndianUint32 b = some v) :
    ∃ b0 b1 b2 b3 : Byte, b = [b0, b1, b2, b3] ∧
      v = b0.val * 2 ^ 24 + b1.val * 2 ^ 16 + b2.val * 2 ^ 8 + b3.val := by
  rcases b with _ | ⟨b0, _ | ⟨b1, _ | ⟨b2, _ | ⟨b3, _ | ⟨x, t⟩⟩⟩⟩⟩
  · simp [bigEndianUint32] at h
  · simp [bigEndianUint32] at h
  · simp [bigEndianUint32] at h
  · simp [bigEndianUint32] at h
  · rw [bigEndianUint32_four] at h
    exact ⟨b0, b1, b2, b3, rfl, (Option.some.inj h).symm⟩
  · simp at hlen

/-- A successful `binary.LittleEndian.Uint32` on a slice of at most four
bytes: the slice has four bytes, and the result is their little-endian
value. -/
theorem littleEndianUint32_eq_some (b : Bytes) (v : Nat) (hlen : b.length ≤ 4)
    (h : littleEndianUint32 b = some v) :
    ∃ c0 c1 c2 c3 : Byte, b = [c0, c1, c2, c3] ∧
      v = c0.val + c1.val * 2 ^ 8 + c2.val * 2 ^ 16 + c3.val * 2 ^ 24 := by
  rcases b with _ | ⟨c0, _ | ⟨c1, _ | ⟨c2, _ | ⟨c3, _ | ⟨x, t⟩⟩⟩⟩⟩
  · simp [littleEndianUint32] at h
  · simp [littleEndianUint32] at h
  · simp [littleEndianUint32] at h
  · simp [littleEndianUint32] at h
  · have h2 : littleEndianUint32 [c0, c1, c2, c3] = bigEndianUint32 [c3, c2, c1, c0] := rfl
    rw [h2, bigEndianUint32_four] at h
    refine ⟨c0, c1, c2, c3, rfl, ?_⟩
    have := Option.some.inj h
    omega
  · simp at hlen

/-- The parts of a successful `init`. -/
theorem init_eq_some (data : Slice) (loc : Locator) (h : init data = some loc) :
    ∃ (hdr : Slice) (t : Nat) (textData : Slice) (index : List Int)
      (rows : List (Nat × Int × Int)),
      data.slice 0 4 = some hdr ∧ bigEndianUint32 hdr.bytes = some t ∧
      data.sliceFrom ((t : Int) - 1024) = some textData ∧
      collect ((List.range 256).map (loadIndexEntry data)) = some index ∧
      0 ≤ ((t : Int) - 4 - 1024 - 1024).tdiv 8 ∧
      collect ((List.range (((t : Int) - 4 - 1024 - 1024).tdiv 8).toNat).map (loadRow data))
        = some rows ∧
      loc = { textData := textData
              indexData1 := rows.map (fun r => r.1)
              indexData2 := rows.map (fun r => r.2.1)
              indexData3 := rows.map (fun r => r.2.2)
              index := index } := by
  unfold init at h
  split at h
  · exact absurd h (by simp)
  · rename_i hdr hhdr
    split at h
    · exact absurd h (by simp)
    · rename_i t ht
      dsimp only at h
      split at h
      · exact absurd h (by simp)
      · rename_i textData htd
        split at h
        · exact absurd h (by simp)
        · rename_i index hidx
          split at h
          · exact absurd h (by simp)
          · rename_i hn
            split at h
            · exact absurd h (by simp)
            · rename_i rows hrows
              exact ⟨hdr, t, textData, index, rows, hhdr, ht, htd, hidx, by omega, hrows,
                (Option.some.inj h).symm⟩

/-- The header read by `init`: the big-endian value of the first four bytes
of the buffer. -/
theorem header_eq (data hdr : Slice) (t : Nat) (h1 : data.slice 0 4 = some hdr)
    (h2 : bigEndianUint32 hdr.bytes = some t) :
    ∃ b0 b1 b2 b3 : Byte, data.mem.take 4 = [b0, b1, b2, b3] ∧
      t = b0.val * 2 ^ 24 + b1.val * 2 ^ 16 + b2.val * 2 ^ 8 + b3.val := by
  obtain ⟨_, _, _, hb, _, _⟩ := Slice.slice_eq_some data hdr 0 4 h1
  have hb2 : hdr.bytes = data.mem.take 4 := by
    rw [hb]
    rfl
  rw [hb2] at h2
  exact bigEndianUint32_eq_some _ t (by simp) h2

/-- One iteration of the first loop of `init`. -/
theorem loadIndexEntry_eq_some (data : Slice) (i : Nat) (a : Int)
    (h : loadIndexEntry data i = some a) :
    ∃ c0 c1 c2 c3 : Byte, (data.mem.drop (4 + 4 * i)).take 4 = [c0, c1, c2, c3] ∧
      a = ((c0.val + c1.val * 2 ^ 8 + c2.val * 2 ^ 16 + c3.val * 2 ^ 24 : Nat) : Int) := by
  unfold loadIndexEntry at h
  dsimp only at h
  split at h
  · exact absurd h (by simp)
  · rename_i b hb
    split at h
    · exact absurd h (by simp)
    · rename_i v hv
      obtain ⟨_, _, _, hbytes, _, _⟩ := Slice.slice_eq_some data b _ _ hb
      have e1 : (4 + (i : Int) * 4).toNat = 4 + 4 * i := by omega
      have e2 : (4 + (i : Int) * 4 + 4).toNat - (4 + 4 * i) = 4 := by omega
      rw [e1, e2] at hbytes
      rw [hbytes] at hv
      obtain ⟨c0, c1, c2, c3, hc, hval⟩ := littleEndianUint32_eq_some _ v (by simp) hv
      refine ⟨c0, c1, c2, c3, hc, ?_⟩
      rw [← hval]
      exact (Option.some.inj h).symm

/-- Eight bytes, known as a block of four and four single bytes. -/
theorem take_eight (l : Bytes) (b0 b1 b2 b3 b4 b5 b6 b7 : Byte)
    (h : l.take 4 = [b0, b1, b2, b3]) (h4 : l[4]? = some b4) (h5 : l[5]? = some b5)
    (h6 : l[6]? = some b6) (h7 : l[7]? = some b7) :
    l.take 8 = [b0, b1, b2, b3, b4, b5, b6, b7] := by
  rcases l with _ | ⟨x0, _ | ⟨x1, _ | ⟨x2, _ | ⟨x3, _ | ⟨x4, _ | ⟨x5, _ | ⟨x6, _ | ⟨x7, t⟩⟩⟩⟩⟩⟩⟩⟩
  all_goals simp_all

/-- The three packed bytes of a text offset stay below `2^24`. -/
theorem packed_offset_lt (b4 b5 b6 : Byte) :
    b4.val ||| b5.val <<< 8 ||| b6.val <<< 16 < 2 ^ 24 := by
  have h4 := b4.isLt
  have h5 := b5.isLt
  have h6 := b6.isLt
  apply Nat.or_lt_two_pow
  · apply Nat.or_lt_two_pow
    · omega
    · rw [Nat.shiftLeft_eq]; omega
  · rw [Nat.shiftLeft_eq]; omega

/-- One iteration of the second loop of `init`. -/
theorem loadRow_eq_some (data : Slice) (i : Nat) (v1 : Nat) (v2 v3 : Int)
    (h : loadRow data i = some (v1, v2, v3)) :
    ∃ b0 b1 b2 b3 b4 b5 b6 b7 : Byte,
      (data.mem.drop (1028 + 8 * i)).take 8 = [b0, b1, b2, b3, b4, b5, b6, b7] ∧
      1028 + 8 * i + 8 ≤ data.len ∧
      v1 = b0.val * 2 ^ 24 + b1.val * 2 ^ 16 + b2.val * 2 ^ 8 + b3.val ∧
      v2 = ((b4.val ||| b5.val <<< 8 ||| b6.val <<< 16 : Nat) : Int) ∧
      v3 = (b7.val : Int) := by
  unfold loadRow at h
  dsimp only at h
  split at h
  · exact absurd h (by simp)
  · rename_i b hb
    split at h
    · exact absurd h (by simp)
    · rename_i w hw
      split at h
      · rename_i b4 b5 b6 b7 h4 h5 h6 h7
        obtain ⟨_, _, _, hbytes, _, _⟩ := Slice.slice_eq_some data b _ _ hb
        have e1 : (4 + 1024 + (i : Int) * 8).toNat = 1028 + 8 * i := by omega
        have e2 : (4 + 1024 + (i : Int) * 8 + 4).toNat - (1028 + 8 * i) = 4 := by omega
        rw [e1, e2] at hbytes
        rw [hbytes] at hw
        obtain ⟨b0, b1, b2, b3, hb03, hval⟩ := bigEndianUint32_eq_some _ w (by simp) hw
        obtain ⟨_, _, g4⟩ := Slice.index_eq_some data _ b4 h4
        obtain ⟨_, _, g5⟩ := Slice.index_eq_some data _ b5 h5
        obtain ⟨_, _, g6⟩ := Slice.index_eq_some data _ b6 h6
        obtain ⟨_, hlen, g7⟩ := Slice.index_eq_some data _ b7 h7
        have n4 : (4 + 1024 + (i : Int) * 8 + 4).toNat = 1028 + 8 * i + 4 := by omega
        have n5 : (4 + 1024 + (i : Int) * 8 + 5).toNat = 1028 + 8 * i + 5 := by omega
        have n6 : (4 + 1024 + (i : Int) * 8 + 6).toNat = 1028 + 8 * i + 6 := by omega
        have n7 : (4 + 1024 + (i : Int) * 8 + 7).toNat = 1028 + 8 * i + 7 := by omega
        rw [n4] at g4
        rw [n5] at g5
        rw [n6] at g6
        rw [n7] at g7
        simp only [Option.some.injEq, Prod.mk.injEq] at h
        obtain ⟨hv1, hv2, hv3⟩ := h
        refine ⟨b0, b1, b2, b3, b4, b5, b6, b7, ?_, by omega, ?_, hv2.symm, hv3.symm⟩
        · apply take_eight _ _ _ _ _ _ _ _ _ hb03
          · rw [List.getElem?_drop]; exact g4
          · rw [List.getElem?_drop]; exact g5
          · rw [List.getElem?_drop]; exact g6
          · rw [List.getElem?_drop]; exact g7
        · rw [← hv1]; exact hval
      · exact absurd h (by simp)

theorem getAt_natCast {α : Type} (xs : List α) (i : Nat) : getAt xs (i : Int) = xs[i]? := by
  simp [getAt]

set_option maxRecDepth 100000 in
/-- The example database image loads into the example locator. -/
theorem init_exampleData : init exampleData = some exampleLocator := by rfl

set_option maxRecDepth 100000 in
/-- The bytes stored for bucket 128 in the example image. -/
theorem exampleData_bucket128 :
    (exampleData.mem.drop (4 + 4 * 128)).take 4 = [1, 0, 0, 0] := by decide

set_option maxRecDepth 100000 in
/-- The entry of bucket 128 in the example locator. -/
theorem exampleLocator_index128 :
    getAt exampleLocator.index ((128 : Nat) : Int) = some 1 := by decide

set_option maxRecDepth 100000 in
/-- Two lookups in the example locator: `1.2.3.4` falls in the first row, whose
record has an empty city and an ISP with a suffix; `200.2.3.4` starts at the
bucket entry `1` and falls in the second row. -/
theorem FindByUint_exampleLocator :
    FindByUint exampleLocator 0x01020304
        = some { Country := ascii "AA", Region := ascii "BB", City := ascii "N/A",
                 Isp := ascii "Net" } ∧
      FindByUint exampleLocator 0xC8020304
        = some { Country := ascii "CC", Region := ascii "DD", City := ascii "EE",
                 Isp := ascii "FF" } := by
  decide

/-- What `init` leaves in `loc.index`: 256 entries, entry `i` being the
little-endian value of the four bytes at `[4+4i, 8+4i)` of the buffer. -/
theorem init_index (data : Slice) (loc : Locator) (i : Nat)
    (h : init data = some loc) (hi : i < 256) :
    loc.index.length = 256 ∧
      ∃ c0 c1 c2 c3 : Byte, (data.mem.drop (4 + 4 * i)).take 4 = [c0, c1, c2, c3] ∧
        getAt loc.index (i : Int)
          = some ((c0.val + c1.val * 2 ^ 8 + c2.val * 2 ^ 16 + c3.val * 2 ^ 24 : Nat) : Int) := by
  obtain ⟨hdr, t, textData, index, rows, _, _, _, hidx, _, _, hloc⟩ := init_eq_some data loc h
  obtain ⟨hl, hall⟩ := collect_range _ _ _ hidx
  obtain ⟨a, ha1, ha2⟩ := hall i hi
  obtain ⟨c0, c1, c2, c3, hc, hval⟩ := loadIndexEntry_eq_some data i a ha1
  subst hloc
  refine ⟨hl, c0, c1, c2, c3, hc, ?_⟩
  rw [getAt_natCast, ← hval]
  exact ha2

/-! ## Claims about loading -/

/-- C9 (as stated, refuted): the example image is accepted by the loader, the
little-endian u32 stored for bucket 128 (bytes `[516, 520)`) is `1`, and the
loaded entry `loc.index[128]` is `1`, not `1 / 8 = 0`; so it is not true that
every loaded bucket entry is the stored value divided by 8. -/
theorem C9_index_divided_by_8_counterexample :
    init exampleData = some exampleLocator ∧
      (exampleData.mem.drop (4 + 4 * 128)).take 4 = [1, 0, 0, 0] ∧
      getAt exampleLocator.index ((128 : Nat) : Int) = some 1 ∧
      ¬ (∀ (data : Slice) (loc : Locator) (i : Nat), init data = some loc → i < 256 →
          ∃ c0 c1 c2 c3 : Byte, (data.mem.drop (4 + 4 * i)).take 4 = [c0, c1, c2, c3] ∧
            getAt loc.index (i : Int)
              = some (((c0.val + c1.val * 2 ^ 8 + c2.val * 2 ^ 16 + c3.val * 2 ^ 24) / 8 : Nat)
                  : Int)) := by
  have hbytes := exampleData_bucket128
  have hget := exampleLocator_index128
  refine ⟨init_exampleData, hbytes, hget, ?_⟩
  intro hall
  obtain ⟨c0, c1, c2, c3, hc, hg⟩ := hall exampleData exampleLocator 128 init_exampleData
    (by decide)
  rw [hbytes] at hc
  simp only [List.cons.injEq, and_true] at hc
  obtain ⟨h0, h1, h2, h3⟩ := hc
  subst h0 h1 h2 h3
  rw [hget] at hg
  exact absurd hg (by decide)

/-- C9 (amended): for every buffer the loader accepts and every bucket `i` in
`0..255`, the loaded bucket index has 256 entries and its entry `loc.index[i]`
equals the little-endian u32 stored at bytes `[4+4i, 8+4i)` of the buffer
(of its backing array: the loader reads them by a slice expression), as it
is: the stored value is taken as a row index, it is not divided by 8. -/
theorem C9_index_is_stored_value (data : Slice) (loc : Locator) (i : Nat)
    (h : init data = some loc) (hi : i < 256) :
    loc.index.length = 256 ∧
      ∃ c0 c1 c2 c3 : Byte, (data.mem.drop (4 + 4 * i)).take 4 = [c0, c1, c2, c3] ∧
        getAt loc.index (i : Int)
          = some ((c0.val + c1.val * 2 ^ 8 + c2.val * 2 ^ 16 + c3.val * 2 ^ 24 : Nat) : Int) :=
  init_index data loc i h hi

theorem C9_index_is_stored_value_witness :
    exampleLocator.index.length = 256 ∧
      ∃ c0 c1 c2 c3 : Byte, (exampleData.mem.drop (4 + 4 * 128)).take 4 = [c0, c1, c2, c3] ∧
        getAt exampleLocator.index ((128 : Nat) : Int)
          = some ((c0.val + c1.val * 2 ^ 8 + c2.val * 2 ^ 16 + c3.val * 2 ^ 24 : Nat) : Int) :=
  C9_index_is_stored_value exampleData exampleLocator 128 init_exampleData (by decide)

/-- What `init` leaves in the three columns of the range table. -/
theorem init_rows (data : Slice) (loc : Locator) (h : init data = some loc) :
    ∃ h0 h1 h2 h3 : Byte, data.mem.take 4 = [h0, h1, h2, h3] ∧
      ∃ n : Nat,
        (n : Int) = (((h0.val * 2 ^ 24 + h1.val * 2 ^ 16 + h2.val * 2 ^ 8 + h3.val : Nat) : Int)
          - 4 - 1024 - 1024).tdiv 8 ∧
        loc.indexData1.length = n ∧ loc.indexData2.length = n ∧ loc.indexData3.length = n ∧
        ∀ i : Nat, i < n →
          ∃ b0 b1 b2 b3 b4 b5 b6 b7 : Byte,
            (data.mem.drop (1028 + 8 * i)).take 8 = [b0, b1, b2, b3, b4, b5, b6, b7] ∧
            1028 + 8 * i + 8 ≤ data.len ∧
            getAt loc.indexData1 (i : Int)
              = some (b0.val * 2 ^ 24 + b1.val * 2 ^ 16 + b2.val * 2 ^ 8 + b3.val) ∧
            getAt loc.indexData2 (i : Int)
              = some ((b4.val ||| b5.val <<< 8 ||| b6.val <<< 16 : Nat) : Int) ∧
            b4.val ||| b5.val <<< 8 ||| b6.val <<< 16 < 2 ^ 24 ∧
            getAt loc.indexData3 (i : Int) = some (b7.val : Int) ∧ b7.val ≤ 255 := by
  obtain ⟨hdr, t, textData, index, rows, hhdr, ht, _, _, hn, hrows, hloc⟩ :=
    init_eq_some data loc h
  obtain ⟨h0, h1, h2, h3, hh, htval⟩ := header_eq data hdr t hhdr ht
  obtain ⟨hl, hall⟩ := collect_range _ _ _ hrows
  subst hloc
  subst htval
  refine ⟨h0, h1, h2, h3, hh, _, Int.toNat_of_nonneg hn, by simpa using hl,
    by simpa using hl, by simpa using hl, ?_⟩
  intro i hi
  obtain ⟨⟨v1, v2, v3⟩, ha1, ha2⟩ := hall i hi
  obtain ⟨b0, b1, b2, b3, b4, b5, b6, b7, hb, hlen, e1, e2, e3⟩ :=
    loadRow_eq_some data i v1 v2 v3 ha1
  refine ⟨b0, b1, b2, b3, b4, b5, b6, b7, hb, hlen, ?_, ?_, packed_offset_lt b4 b5 b6, ?_,
    by omega⟩
  · rw [getAt_natCast, List.getElem?_map, ha2, ← e1]; rfl
  · rw [getAt_natCast, List.getElem?_map, ha2, ← e2]; rfl
  · rw [getAt_natCast, List.getElem?_map, ha2, ← e3]; rfl

/-- C10: for every buffer the loader accepts, with `textRegionStart` the
big-endian u32 of bytes `[0,4)`: the three range-table columns all have length
`(textRegionStart - 4 - 1024 - 1024) / 8` (Go's integer division), and for
every row `i` below that count, with `o = 1028 + 8i`, the eight bytes
`[o, o+8)` lie inside the buffer, `upperBound` is the big-endian u32 of bytes
`[o, o+4)`, `textOffset` is `data[o+4] | data[o+5]<<8 | data[o+6]<<16` (hence
below `2^24`), and `textLength` is `data[o+7]` (hence at most 255). -/
theorem C10_range_table_layout (data : Slice) (loc : Locator) (h : init data = some loc) :
    ∃ h0 h1 h2 h3 : Byte, data.mem.take 4 = [h0, h1, h2, h3] ∧
      ∃ n : Nat,
        (n : Int) = (((h0.val * 2 ^ 24 + h1.val * 2 ^ 16 + h2.val * 2 ^ 8 + h3.val : Nat) : Int)
          - 4 - 1024 - 1024).tdiv 8 ∧
        loc.indexData1.length = n ∧ loc.indexData2.length = n ∧ loc.indexData3.length = n ∧
        ∀ i : Nat, i < n →
          ∃ b0 b1 b2 b3 b4 b5 b6 b7 : Byte,
            (data.mem.drop (1028 + 8 * i)).take 8 = [b0, b1, b2, b3, b4, b5, b6, b7] ∧
            1028 + 8 * i + 8 ≤ data.len ∧
            getAt loc.indexData1 (i : Int)
              = some (b0.val * 2 ^ 24 + b1.val * 2 ^ 16 + b2.val * 2 ^ 8 + b3.val) ∧
            getAt loc.indexData2 (i : Int)
              = some ((b4.val ||| b5.val <<< 8 ||| b6.val <<< 16 : Nat) : Int) ∧
            b4.val ||| b5.val <<< 8 ||| b6.val <<< 16 < 2 ^ 24 ∧
            getAt loc.indexData3 (i : Int) = some (b7.val : Int) ∧ b7.val ≤ 255 :=
  init_rows data loc h

theorem C10_range_table_layout_witness :
    ∃ h0 h1 h2 h3 : Byte, exampleData.mem.take 4 = [h0, h1, h2, h3] ∧
      ∃ n : Nat,
        (n : Int) = (((h0.val * 2 ^ 24 + h1.val * 2 ^ 16 + h2.val * 2 ^ 8 + h3.val : Nat) : Int)
          - 4 - 1024 - 1024).tdiv 8 ∧
        exampleLocator.indexData1.length = n ∧ exampleLocator.indexData2.length = n ∧
        exampleLocator.indexData3.length = n ∧
        ∀ i : Nat, i < n →
          ∃ b0 b1 b2 b3 b4 b5 b6 b7 : Byte,
            (exampleData.mem.drop (1028 + 8 * i)).take 8 = [b0, b1, b2, b3, b4, b5, b6, b7] ∧
            1028 + 8 * i + 8 ≤ exampleData.len ∧
            getAt exampleLocator.indexData1 (i : Int)
              = some (b0.val * 2 ^ 24 + b1.val * 2 ^ 16 + b2.val * 2 ^ 8 + b3.val) ∧
            getAt exampleLocator.indexData2 (i : Int)
              = some ((b4.val ||| b5.val <<< 8 ||| b6.val <<< 16 : Nat) : Int) ∧
            b4.val ||| b5.val <<< 8 ||| b6.val <<< 16 < 2 ^ 24 ∧
            getAt exampleLocator.indexData3 (i : Int) = some (b7.val : Int) ∧ b7.val ≤ 255 :=
  C10_range_table_layout exampleData exampleLocator init_exampleData

/-! ## Facts about the numeric lookup -/

theorem Slice.sliceFrom_eq_some (s t : Slice) (lo : Int) (h : s.sliceFrom lo = some t) :
    0 ≤ lo ∧ lo ≤ (s.len : Int) ∧ t.mem = s.mem.drop lo.toNat ∧ t.len = s.len - lo.toNat := by
  unfold Slice.sliceFrom at h
  split at h
  · rename_i hc
    obtain ⟨_, _, _, _, hm, hl⟩ := Slice.slice_eq_some s t lo s.len h
    refine ⟨hc.1, hc.2, hm, ?_⟩
    rw [hl]
    simp
  · exact absurd h (by simp)

/-- The steps of a `FindByUint` that completes. -/
theorem FindByUint_eq_some (loc : Locator) (ip : Nat) (info : LocationInfo)
    (h : FindByUint loc ip = some info) :
    ∃ (start r off n : Int) (str : Slice),
      getAt loc.index ((ip >>> 24 : Nat) : Int) = some start ∧
      findIndexOffset loc ip start = some r ∧
      getAt loc.indexData2 r = some off ∧ getAt loc.indexData3 r = some n ∧
      loc.textData.slice off (off + n) = some str ∧ info = newLocationInfo str.bytes := by
  unfold FindByUint at h
  split at h
  · exact absurd h (by simp)
  · rename_i start hstart
    split at h
    · exact absurd h (by simp)
    · rename_i r hr
      split at h
      · exact absurd h (by simp)
      · rename_i off hoff
        split at h
        · exact absurd h (by simp)
        · rename_i n hn
          split at h
          · exact absurd h (by simp)
          · rename_i str hstr
            exact ⟨start, r, off, n, str, hstart, hr, hoff, hn, hstr,
              (Option.some.inj h).symm⟩

/-- The record of a completed lookup in a loaded database, in terms of the
bytes of the buffer: the text of the resolved row starts `textOffset` bytes
after position `textRegionStart - 1024`. -/
theorem FindByUint_text (data : Slice) (loc : Locator) (ip : Nat) (info : LocationInfo)
    (h : init data = some loc) (hf : FindByUint loc ip = some info) :
    ∃ h0 h1 h2 h3 : Byte, data.mem.take 4 = [h0, h1, h2, h3] ∧
      1024 ≤ h0.val * 2 ^ 24 + h1.val * 2 ^ 16 + h2.val * 2 ^ 8 + h3.val ∧
      ∃ (start r : Int) (off n : Nat),
        getAt loc.index ((ip >>> 24 : Nat) : Int) = some start ∧
        findIndexOffset loc ip start = some r ∧
        getAt loc.indexData2 r = some (off : Int) ∧
        getAt loc.indexData3 r = some (n : Int) ∧
        (h0.val * 2 ^ 24 + h1.val * 2 ^ 16 + h2.val * 2 ^ 8 + h3.val) - 1024 + off + n
          ≤ data.mem.length ∧
        info = newLocationInfo
          ((data.mem.drop
            ((h0.val * 2 ^ 24 + h1.val * 2 ^ 16 + h2.val * 2 ^ 8 + h3.val) - 1024 + off)).take
            n) := by
  obtain ⟨hdr, t, textData, index, rows, hhdr, ht, htd, _, _, _, hloc⟩ :=
    init_eq_some data loc h
  obtain ⟨h0, h1, h2, h3, hh, htval⟩ := header_eq data hdr t hhdr ht
  obtain ⟨start, r, off, n, str, hstart, hr, hoff, hn, hstr, hinfo⟩ :=
    FindByUint_eq_some loc ip info hf
  obtain ⟨hlo0, hlo1, hmem, _⟩ := Slice.sliceFrom_eq_some data textData _ htd
  have htext : loc.textData = textData := by rw [hloc]
  rw [htext] at hstr
  obtain ⟨ho0, ho1, ho2, hbytes, _, _⟩ := Slice.slice_eq_some textData str off (off + n) hstr
  have hcap : (textData.mem.length : Int) = (data.mem.length : Int) - ((t : Int) - 1024) := by
    rw [hmem, List.length_drop]
    have := data.len_le
    omega
  have hoffn : ((off.toNat : Nat) : Int) = off := by omega
  have hnn : ((n.toNat : Nat) : Int) = n := by omega
  refine ⟨h0, h1, h2, h3, hh, ?_⟩
  rw [← htval]
  refine ⟨by omega, start, r, off.toNat, n.toNat, hstart, hr,
    by rw [hoffn]; exact hoff, by rw [hnn]; exact hn, by omega, ?_⟩
  rw [hinfo, hbytes, hmem, List.drop_drop]
  have e1 : ((t : Int) - 1024).toNat = t - 1024 := by omega
  have e2 : (off + n).toNat - off.toNat = n.toNat := by omega
  rw [e1, e2]

/-! ## Claims about the numeric lookup -/

/-- C11: text offsets are resolved against the base `textRegionStart - 1024`.
For every accepted buffer `data` and every `ip` for which `FindByUint`
completes, the record returned is `newLocationInfo` applied to the bytes
`data[base + textOffset_r, base + textOffset_r + textLength_r)` with
`base = textRegionStart - 1024`, where `r = findIndexOffset(ip, index[ip >> 24])`
is the resolved row; these bytes lie inside the backing array of the buffer. -/
theorem C11_text_offset_base (data : Slice) (loc : Locator) (ip : Nat) (info : LocationInfo)
    (h : init data = some loc) (hf : FindByUint loc ip = some info) :
    ∃ h0 h1 h2 h3 : Byte, data.mem.take 4 = [h0, h1, h2, h3] ∧
      1024 ≤ h0.val * 2 ^ 24 + h1.val * 2 ^ 16 + h2.val * 2 ^ 8 + h3.val ∧
      ∃ (start r : Int) (off n : Nat),
        getAt loc.index ((ip >>> 24 : Nat) : Int) = some start ∧
        findIndexOffset loc ip start = some r ∧
        getAt loc.indexData2 r = some (off : Int) ∧
        getAt loc.indexData3 r = some (n : Int) ∧
        (h0.val * 2 ^ 24 + h1.val * 2 ^ 16 + h2.val * 2 ^ 8 + h3.val) - 1024 + off + n
          ≤ data.mem.length ∧
        info = newLocationInfo
          ((data.mem.drop
            ((h0.val * 2 ^ 24 + h1.val * 2 ^ 16 + h2.val * 2 ^ 8 + h3.val) - 1024 + off)).take
            n) :=
  FindByUint_text data loc ip info h hf

/-! ## Facts about which buffers load -/

theorem Slice.slice_of_le (s : Slice) (lo hi : Int)
    (h : 0 ≤ lo ∧ lo ≤ hi ∧ hi ≤ (s.mem.length : Int)) :
    ∃ t, s.slice lo hi = some t ∧
      t.bytes = (s.mem.drop lo.toNat).take (hi.toNat - lo.toNat) := by
  unfold Slice.slice
  rw [dif_pos (by simpa [Slice.cap] using h)]
  exact ⟨_, rfl, rfl⟩

theorem Slice.index_of_lt (s : Slice) (i : Int) (h : 0 ≤ i ∧ i < (s.len : Int)) :
    ∃ b, s.index i = some b := by
  have hlen := s.len_le
  have hi : i.toNat < s.mem.length := by omega
  unfold Slice.index
  rw [if_pos h]
  exact ⟨s.mem[i.toNat], List.getElem?_eq_getElem hi⟩

theorem bigEndianUint32_of_length (b : Bytes) (h : 4 ≤ b.length) :
    ∃ v, bigEndianUint32 b = some v := by
  rcases b with _ | ⟨b0, _ | ⟨b1, _ | ⟨b2, _ | ⟨b3, t⟩⟩⟩⟩
  all_goals first
    | (simp at h; done)
    | exact ⟨_, rfl⟩

theorem littleEndianUint32_of_length (b : Bytes) (h : 4 ≤ b.length) :
    ∃ v, littleEndianUint32 b = some v := by
  rcases b with _ | ⟨b0, _ | ⟨b1, _ | ⟨b2, _ | ⟨b3, t⟩⟩⟩⟩
  all_goals first
    | (simp at h; done)
    | exact ⟨_, rfl⟩

/-- A loop of which no iteration panics yields all its results. -/
theorem collect_of_forall {α : Type} :
    ∀ (l : List (Option α)), (∀ x ∈ l, ∃ a, x = some a) → ∃ r, collect l = some r := by
  intro l
  induction l with
  | nil => intro _; exact ⟨[], rfl⟩
  | cons x xs ih =>
    intro h
    obtain ⟨a, ha⟩ := h x (List.mem_cons_self _ _)
    obtain ⟨r, hr⟩ := ih (fun y hy => h y (List.mem_cons_of_mem _ hy))
    exact ⟨a :: r, by simp only [collect, ha, hr]⟩

theorem collect_range_of_forall {α : Type} (f : Nat → Option α) (n : Nat)
    (h : ∀ i, i < n → ∃ a, f i = some a) :
    ∃ r, collect ((List.range n).map f) = some r := by
  apply collect_of_forall
  intro x hx
  obtain ⟨i, hi, rfl⟩ := List.mem_map.mp hx
  exact h i (List.mem_range.mp hi)

/-- Reading a bucket entry that lies within the capacity does not panic. -/
theorem loadIndexEntry_of_cap (data : Slice) (i : Nat) (h : 4 + 4 * i + 4 ≤ data.mem.length) :
    ∃ a, loadIndexEntry data i = some a := by
  obtain ⟨b, hb, hbytes⟩ := Slice.slice_of_le data (4 + (i : Int) * 4) (4 + (i : Int) * 4 + 4)
    ⟨by omega, by omega, by omega⟩
  have hlen : 4 ≤ b.bytes.length := by
    rw [hbytes, List.length_take, List.length_drop]
    omega
  obtain ⟨v, hv⟩ := littleEndianUint32_of_length _ hlen
  exact ⟨(v : Int), by simp only [loadIndexEntry, hb, hv]⟩

/-- Reading a row that lies within the length does not panic. -/
theorem loadRow_of_len (data : Slice) (i : Nat) (h : 1028 + 8 * i + 8 ≤ data.len) :
    ∃ a, loadRow data i = some a := by
  have hcap := data.len_le
  obtain ⟨b, hb, hbytes⟩ := Slice.slice_of_le data (4 + 1024 + (i : Int) * 8)
    (4 + 1024 + (i : Int) * 8 + 4) ⟨by omega, by omega, by omega⟩
  have hlen : 4 ≤ b.bytes.length := by
    rw [hbytes, List.length_take, List.length_drop]
    omega
  obtain ⟨v, hv⟩ := bigEndianUint32_of_length _ hlen
  obtain ⟨b4, h4⟩ := Slice.index_of_lt data (4 + 1024 + (i : Int) * 8 + 4) ⟨by omega, by omega⟩
  obtain ⟨b5, h5⟩ := Slice.index_of_lt data (4 + 1024 + (i : Int) * 8 + 5) ⟨by omega, by omega⟩
  obtain ⟨b6, h6⟩ := Slice.index_of_lt data (4 + 1024 + (i : Int) * 8 + 6) ⟨by omega, by omega⟩
  obtain ⟨b7, h7⟩ := Slice.index_of_lt data (4 + 1024 + (i : Int) * 8 + 7) ⟨by omega, by omega⟩
  simp only [loadRow, hb, hv, h4, h5, h6, h7]
  exact ⟨_, rfl⟩

/-- A buffer loads when its capacity holds the header and the bucket table,
its declared text region starts at or after `2045` and not past the end of the
buffer (shifted by 1024), and its length holds the rows that this declares. -/
theorem init_of_bounds (data : Slice) (h0 h1 h2 h3 : Byte)
    (hh : data.mem.take 4 = [h0, h1, h2, h3])
    (hcap : 1028 ≤ data.mem.length)
    (ht0 : 2045 ≤ h0.val * 2 ^ 24 + h1.val * 2 ^ 16 + h2.val * 2 ^ 8 + h3.val)
    (ht1 : h0.val * 2 ^ 24 + h1.val * 2 ^ 16 + h2.val * 2 ^ 8 + h3.val ≤ data.len + 1024) :
    ∃ loc, init data = some loc := by
  obtain ⟨hdr, hhdr, hbytes⟩ := Slice.slice_of_le data 0 4 ⟨by omega, by omega, by omega⟩
  have hb2 : hdr.bytes = [h0, h1, h2, h3] := by
    rw [hbytes, ← hh]
    rfl
  have ht : bigEndianUint32 hdr.bytes
      = some (h0.val * 2 ^ 24 + h1.val * 2 ^ 16 + h2.val * 2 ^ 8 + h3.val) := by
    rw [hb2, bigEndianUint32_four]
  generalize h0.val * 2 ^ 24 + h1.val * 2 ^ 16 + h2.val * 2 ^ 8 + h3.val = t at ht ht0 ht1
  have hlen := data.len_le
  have htd : ∃ td, data.sliceFrom ((t : Int) - 1024) = some td := by
    unfold Slice.sliceFrom
    rw [if_pos ⟨by omega, by omega⟩]
    obtain ⟨td, h1, _⟩ := Slice.slice_of_le data ((t : Int) - 1024) (data.len : Int)
      ⟨by omega, by omega, by omega⟩
    exact ⟨td, h1⟩
  obtain ⟨td, htd⟩ := htd
  obtain ⟨index, hindex⟩ := collect_range_of_forall (loadIndexEntry data) 256
    (fun i hi => loadIndexEntry_of_cap data i (by omega))
  have hn : ¬ ((t : Int) - 4 - 1024 - 1024).tdiv 8 < 0 := by
    rcases Int.lt_or_le ((t : Int) - 4 - 1024 - 1024) 0 with hneg | hpos
    · have e : ((t : Int) - 4 - 1024 - 1024).tdiv 8 = -((2052 - (t : Int)) / 8) := by
        rw [← Int.tdiv_eq_ediv (by omega) (by omega), ← Int.neg_tdiv]
        congr 1
        omega
      rw [e]
      omega
    · rw [Int.tdiv_eq_ediv hpos (by omega)]
      omega
  have hrow : ∀ i, i < (((t : Int) - 4 - 1024 - 1024).tdiv 8).toNat →
      ∃ a, loadRow data i = some a := by
    intro i hi
    apply loadRow_of_len
    rcases Int.lt_or_le ((t : Int) - 4 - 1024 - 1024) 0 with hneg | hpos
    · have e : ((t : Int) - 4 - 1024 - 1024).tdiv 8 = -((2052 - (t : Int)) / 8) := by
        rw [← Int.tdiv_eq_ediv (by omega) (by omega), ← Int.neg_tdiv]
        congr 1
        omega
      rw [e] at hi
      omega
    · rw [Int.tdiv_eq_ediv hpos (by omega)] at hi
      omega
  obtain ⟨rows, hrows⟩ := collect_range_of_forall (loadRow data) _ hrow
  simp only [init, hhdr, ht, htd, hindex, if_neg hn, hrows]
  exact ⟨_, rfl⟩

/-- A buffer whose capacity does not hold the header and the bucket table
does not load. -/
theorem init_none_of_cap (data : Slice) (h : data.mem.length < 1028) : init data = none := by
  cases hinit : init data with
  | none => rfl
  | some loc =>
    exfalso
    obtain ⟨_, _, _, index, _, _, _, _, hidx, _, _, _⟩ := init_eq_some data loc hinit
    obtain ⟨_, hall⟩ := collect_range _ _ _ hidx
    obtain ⟨a, ha, _⟩ := hall 255 (by omega)
    obtain ⟨c0, c1, c2, c3, hc, _⟩ := loadIndexEntry_eq_some data 255 a ha
    have hl := congrArg List.length hc
    rw [List.length_take, List.length_drop] at hl
    simp at hl
    omega

/-- A buffer whose declared text region starts before `1024`, or more than
`1024` past the end of the buffer, does not load. -/
theorem init_none_of_textoff (data : Slice) (h0 h1 h2 h3 : Byte)
    (hh : data.mem.take 4 = [h0, h1, h2, h3])
    (ht : h0.val * 2 ^ 24 + h1.val * 2 ^ 16 + h2.val * 2 ^ 8 + h3.val < 1024 ∨
      data.len + 1024 < h0.val * 2 ^ 24 + h1.val * 2 ^ 16 + h2.val * 2 ^ 8 + h3.val) :
    init data = none := by
  cases hinit : init data with
  | none => rfl
  | some loc =>
    exfalso
    obtain ⟨hdr, t, td, _, _, hhdr, hbe, htd, _, _, _, _⟩ := init_eq_some data loc hinit
    obtain ⟨g0, g1, g2, g3, hg, htval⟩ := header_eq data hdr t hhdr hbe
    rw [hh] at hg
    simp only [List.cons.injEq, and_true] at hg
    obtain ⟨e0, e1, e2, e3⟩ := hg
    subst e0 e1 e2 e3
    obtain ⟨hlo0, hlo1, _, _⟩ := Slice.sliceFrom_eq_some data td _ htd
    omega

set_option maxRecDepth 100000 in
/-- The header and the length of the example image. -/
theorem exampleData_header :
    exampleData.mem.take 4 = [0, 0, 8, 20] ∧ exampleData.len = 1067 := by decide

set_option maxRecDepth 100000 in
/-- The truncated image loads, although it is shorter than `4 + 1024`. -/
theorem init_truncatedData :
    truncatedData.len = 1027 ∧ truncatedData.mem.length = 1028 ∧
      init truncatedData
        = some { textData := truncatedLocatorText, indexData1 := [], indexData2 := [],
                 indexData3 := [], index := List.replicate 256 0 } := by
  exact ⟨rfl, rfl, rfl⟩

theorem C11_text_offset_base_witness :
    ∃ h0 h1 h2 h3 : Byte, exampleData.mem.take 4 = [h0, h1, h2, h3] ∧
      1024 ≤ h0.val * 2 ^ 24 + h1.val * 2 ^ 16 + h2.val * 2 ^ 8 + h3.val ∧
      ∃ (start r : Int) (off n : Nat),
        getAt exampleLocator.index ((0x01020304 >>> 24 : Nat) : Int) = some start ∧
        findIndexOffset exampleLocator 0x01020304 start = some r ∧
        getAt exampleLocator.indexData2 r = some (off : Int) ∧
        getAt exampleLocator.indexData3 r = some (n : Int) ∧
        (h0.val * 2 ^ 24 + h1.val * 2 ^ 16 + h2.val * 2 ^ 8 + h3.val) - 1024 + off + n
          ≤ exampleData.mem.length ∧
        ({ Country := ascii "AA", Region := ascii "BB", City := ascii "N/A",
           Isp := ascii "Net" } : LocationInfo) = newLocationInfo
          ((exampleData.mem.drop
            ((h0.val * 2 ^ 24 + h1.val * 2 ^ 16 + h2.val * 2 ^ 8 + h3.val) - 1024 + off)).take
            n) :=
  C11_text_offset_base exampleData exampleLocator 0x01020304 _ init_exampleData
    FindByUint_exampleLocator.1

/-! ## Claims about which buffers load -/

/-- C12 (as stated, refuted): the truncated image is shorter than `4 + 1024`
bytes (its length is 1027, its capacity 1028), and `NewLocatorWithData` yields
a Locator from it: the last bucket entry is read from beyond the length of the
buffer, within its capacity, and nothing fails. -/
theorem C12_short_buffer_loads_counterexample :
    truncatedData.len < 4 + 1024 ∧ truncatedData.mem.length = 1028 ∧
      NewLocatorWithData truncatedData
        = some { textData := truncatedLocatorText, indexData1 := [], indexData2 := [],
                 indexData3 := [], index := List.replicate 256 0 } := by
  refine ⟨?_, init_truncatedData.2.1, init_truncatedData.2.2⟩
  rw [init_truncatedData.1]
  decide

/-- C12 (amended): `NewLocatorWithData` fails (panics) and yields no Locator
for every buffer whose capacity is below `4 + 1024` bytes (so for every buffer
shorter than that whose capacity equals its length), for every buffer whose
declared `textRegionStart` is below 1024, and for every buffer whose
`textRegionStart - 1024` exceeds the buffer length; and it yields a Locator
for every buffer with length at least 1028, `textRegionStart >= 2052` and
`textRegionStart - 1024 <= length`. -/
theorem C12_loader_bounds (data : Slice) :
    (data.mem.length < 4 + 1024 → NewLocatorWithData data = none) ∧
      (∀ h0 h1 h2 h3 : Byte, data.mem.take 4 = [h0, h1, h2, h3] →
        (h0.val * 2 ^ 24 + h1.val * 2 ^ 16 + h2.val * 2 ^ 8 + h3.val < 1024 ∨
          data.len + 1024 < h0.val * 2 ^ 24 + h1.val * 2 ^ 16 + h2.val * 2 ^ 8 + h3.val) →
        NewLocatorWithData data = none) ∧
      (∀ h0 h1 h2 h3 : Byte, data.mem.take 4 = [h0, h1, h2, h3] →
        1028 ≤ data.len →
        2052 ≤ h0.val * 2 ^ 24 + h1.val * 2 ^ 16 + h2.val * 2 ^ 8 + h3.val →
        h0.val * 2 ^ 24 + h1.val * 2 ^ 16 + h2.val * 2 ^ 8 + h3.val ≤ data.len + 1024 →
        ∃ loc, NewLocatorWithData data = some loc) := by
  refine ⟨fun h => init_none_of_cap data h, ?_, ?_⟩
  · intro h0 h1 h2 h3 hh ht
    exact init_none_of_textoff data h0 h1 h2 h3 hh ht
  · intro h0 h1 h2 h3 hh hlen ht0 ht1
    have := data.len_le
    exact init_of_bounds data h0 h1 h2 h3 hh (by omega) (by omega) ht1

theorem C12_loader_bounds_witness :
    NewLocatorWithData (Slice.ofBytes [0, 0, 8, 20]) = none ∧
      NewLocatorWithData (Slice.ofBytes [0, 0, 1, 0]) = none ∧
      ∃ loc, NewLocatorWithData exampleData = some loc :=
  ⟨(C12_loader_bounds (Slice.ofBytes [0, 0, 8, 20])).1 (by decide),
    (C12_loader_bounds (Slice.ofBytes [0, 0, 1, 0])).2.1 0 0 1 0 (by decide)
      (Or.inl (by decide)),
    (C12_loader_bounds exampleData).2.2 0 0 8 20 exampleData_header.1
      (by rw [exampleData_header.2]; decide) (by decide)
      (by rw [exampleData_header.2]; decide)⟩

/-! ## Facts about the safety of the numeric lookup -/

/-- The lookup completes when the bucket start is a row index and every row
has a text offset and a text length, natural numbers, whose sum stays within
the capacity of the text region.  The resolved row `r` is the last row or has
`upperBound >= ip`. -/
theorem FindByUint_of_rows (loc : Locator) (ip s : Nat)
    (hstart : getAt loc.index ((ip >>> 24 : Nat) : Int) = some (s : Int))
    (hs : s < loc.indexData1.length)
    (hrows : ∀ i : Nat, i < loc.indexData1.length →
      ∃ off n : Nat, getAt loc.indexData2 (i : Int) = some (off : Int) ∧
        getAt loc.indexData3 (i : Int) = some (n : Int) ∧
        off + n ≤ loc.textData.mem.length) :
    ∃ (r : Nat) (info : LocationInfo),
      findIndexOffset loc ip (s : Int) = some (r : Int) ∧ s ≤ r ∧
      r < loc.indexData1.length ∧
      (r = loc.indexData1.length - 1 ∨ ip ≤ loc.indexData1.getD r 0) ∧
      FindByUint loc ip = some info := by
  obtain ⟨r, hr, ha, hb, _, hd⟩ := findIndexOffset_exit loc ip (s : Int) (by omega) (by omega)
  have hrn : ((r.toNat : Nat) : Int) = r := by omega
  obtain ⟨off, n, hoff, hn, hle⟩ := hrows r.toNat (by omega)
  rw [hrn] at hoff hn
  obtain ⟨str, hstr, _⟩ := Slice.slice_of_le loc.textData (off : Int) ((off : Int) + (n : Int))
    ⟨by omega, by omega, by omega⟩
  refine ⟨r.toNat, newLocationInfo str.bytes, by rw [hrn]; exact hr, by omega, by omega, ?_, ?_⟩
  · rcases hd with hd | hd
    · left; omega
    · right; exact hd
  · simp only [FindByUint, hstart, hr, hoff, hn, hstr]

/-- The first octet of a 32-bit address is below 256. -/
theorem shiftRight_24_lt (ip : Nat) (hip : ip < 2 ^ 32) : ip >>> 24 < 256 := by
  rw [Nat.shiftRight_eq_div_pow]
  omega

/-- In a loaded locator, bucket starts, text offsets and text lengths are
natural numbers, there are 256 bucket starts, and the three columns of the
range table have the same length. -/
theorem init_natural (data : Slice) (loc : Locator) (h : init data = some loc) :
    (∀ i : Nat, i < 256 → ∃ s : Nat, getAt loc.index (i : Int) = some (s : Int)) ∧
      ∀ i : Nat, i < loc.indexData1.length →
        ∃ off n : Nat, getAt loc.indexData2 (i : Int) = some (off : Int) ∧
          getAt loc.indexData3 (i : Int) = some (n : Int) := by
  constructor
  · intro i hi
    obtain ⟨_, c0, c1, c2, c3, _, hg⟩ := init_index data loc i h hi
    exact ⟨_, hg⟩
  · intro i hi
    obtain ⟨_, _, _, _, _, n, _, hl1, _, _, hall⟩ := init_rows data loc h
    obtain ⟨b0, b1, b2, b3, b4, b5, b6, b7, _, _, _, g2, _, g3, _⟩ := hall i (by omega)
    exact ⟨_, _, g2, g3⟩

set_option maxRecDepth 100000 in
/-- The image with an empty range table loads, and every lookup in the locator
it yields panics. -/
theorem init_emptyTableData :
    init emptyTableData = some emptyTableLocator ∧ emptyTableLocator.indexData1 = [] := by
  exact ⟨rfl, rfl⟩

/-- A lookup in a locator whose range table is empty panics. -/
theorem FindByUint_of_empty (loc : Locator) (ip : Nat) (h : loc.indexData1 = []) :
    FindByUint loc ip = none := by
  have hf : ∀ start, findIndexOffset loc ip start = none := by
    intro start
    simp only [findIndexOffset, h, List.length_nil, searchLoop]
    split
    · rfl
    · simp [getAt]
  unfold FindByUint
  split
  · rfl
  · rw [hf]

set_option maxRecDepth 100000 in
/-- The bucket start of the first octet 200 in the example locator is a row. -/
theorem exampleLocator_start200 (s : Int)
    (h : getAt exampleLocator.index ((0xC8020304 >>> 24 : Nat) : Int) = some s) :
    s ≤ (exampleLocator.indexData1.length : Int) - 1 := by
  have h1 : getAt exampleLocator.index ((0xC8020304 >>> 24 : Nat) : Int) = some 1 := by decide
  rw [h1] at h
  rw [← Option.some.inj h]
  decide

/-- The text of every row of the example locator lies in its text region. -/
theorem exampleLocator_rows (i : Nat) (off n : Int)
    (h2 : getAt exampleLocator.indexData2 (i : Int) = some off)
    (h3 : getAt exampleLocator.indexData3 (i : Int) = some n) :
    off + n ≤ (exampleLocator.textData.len : Int) := by
  have hlen : exampleLocator.textData.len = 23 := by decide
  rw [getAt_natCast] at h2 h3
  rw [hlen]
  rcases i with _ | _ | i
  · simp only [exampleLocator, List.getElem?_cons_zero, Option.some.injEq] at h2 h3
    omega
  · simp only [exampleLocator, List.getElem?_cons_succ, List.getElem?_cons_zero,
      Option.some.injEq] at h2 h3
    omega
  · simp [exampleLocator] at h2

/-! ## Claims about the safety of the numeric lookup -/

/-- C13 (as stated, refuted): `NewLocatorWithData` yields a Locator from the
image whose range table is empty (`textRegionStart = 2052`), nothing being
caught at load time, and `FindByUint` then panics (`indexData1[-1]`), for
instance on the address `0`. -/
theorem C13_lookup_can_panic_counterexample :
    NewLocatorWithData emptyTableData = some emptyTableLocator ∧
      FindByUint emptyTableLocator 0 = none :=
  ⟨init_emptyTableData.1, FindByUint_of_empty emptyTableLocator 0 init_emptyTableData.2⟩

/-- C13 (amended): for every buffer from which `NewLocatorWithData` yields a
Locator and for every 32-bit `ip`, `FindByUint` returns a `LocationInfo`, with
no out-of-range table index and no out-of-range text slice, provided that the
bucket start `index[ip >> 24]` is not past the last row (so that the range
table is not empty) and no row has `textOffset + textLength` past the end of
the text region.  (The loader checks none of this.) -/
theorem C13_lookup_safe_when_structure_holds (data : Slice) (loc : Locator) (ip : Nat)
    (h : NewLocatorWithData data = some loc) (hip : ip < 2 ^ 32)
    (hstart : ∀ s : Int, getAt loc.index ((ip >>> 24 : Nat) : Int) = some s →
      s ≤ (loc.indexData1.length : Int) - 1)
    (hrows : ∀ (i : Nat) (off n : Int), getAt loc.indexData2 (i : Int) = some off →
      getAt loc.indexData3 (i : Int) = some n → off + n ≤ (loc.textData.len : Int)) :
    ∃ info, FindByUint loc ip = some info := by
  obtain ⟨hidx, hnat⟩ := init_natural data loc h
  obtain ⟨s, hs⟩ := hidx (ip >>> 24) (shiftRight_24_lt ip hip)
  have hs1 := hstart _ hs
  have hlen := loc.textData.len_le
  obtain ⟨r, info, _, _, _, _, hf⟩ := FindByUint_of_rows loc ip s hs (by omega) (by
    intro i hi
    obtain ⟨off, n, h2, h3⟩ := hnat i hi
    have := hrows i _ _ h2 h3
    exact ⟨off, n, h2, h3, by omega⟩)
  exact ⟨info, hf⟩

theorem C13_lookup_safe_when_structure_holds_witness :
    ∃ info, FindByUint exampleLocator 0xC8020304 = some info :=
  C13_lookup_safe_when_structure_holds exampleData exampleLocator 0xC8020304
    init_exampleData (by decide) exampleLocator_start200 exampleLocator_rows

/-- C14: boundary addresses are safe on a covering table.  For every Locator
whose range table is non-empty with last `upperBound` `0xFFFFFFFF`, whose 256
bucket starts are all row indices (`0 <= start <= last row index`), and whose
every row has a `textOffset` and a `textLength` (natural numbers) with
`textOffset + textLength <= length of the text region`, `FindByUint` completes
without any out-of-bounds index or slice for every 32-bit `ip` (so for `0` and
`0xFFFFFFFF`), and the row it resolves has `upperBound >= ip`. -/
theorem C14_lookup_safe_on_covering_table (loc : Locator) (ip : Nat) (hip : ip < 2 ^ 32)
    (hlast : loc.indexData1.getLast? = some 0xFFFFFFFF)
    (hindex : loc.index.length = 256)
    (hstarts : ∀ s ∈ loc.index, 0 ≤ s ∧ s ≤ (loc.indexData1.length : Int) - 1)
    (hrows : ∀ i : Nat, i < loc.indexData1.length →
      ∃ off n : Int, getAt loc.indexData2 (i : Int) = some off ∧
        getAt loc.indexData3 (i : Int) = some n ∧ 0 ≤ off ∧ 0 ≤ n ∧
        off + n ≤ (loc.textData.len : Int)) :
    ∃ (start : Int) (r : Nat) (info : LocationInfo),
      getAt loc.index ((ip >>> 24 : Nat) : Int) = some start ∧
      findIndexOffset loc ip start = some (r : Int) ∧ r < loc.indexData1.length ∧
      ip ≤ loc.indexData1.getD r 0 ∧ FindByUint loc ip = some info := by
  have hb := shiftRight_24_lt ip hip
  have hlt : ip >>> 24 < loc.index.length := by omega
  have hget : getAt loc.index ((ip >>> 24 : Nat) : Int) = some (loc.index[ip >>> 24]) := by
    rw [getAt_natCast]
    exact List.getElem?_eq_getElem hlt
  obtain ⟨hs0, hs1⟩ := hstarts _ (List.getElem_mem hlt)
  have hsn : ((loc.index[ip >>> 24].toNat : Nat) : Int) = loc.index[ip >>> 24] := by omega
  rw [← hsn] at hget
  have hlen := loc.textData.len_le
  obtain ⟨r, info, hr, _, hrlt, hrub, hf⟩ :=
    FindByUint_of_rows loc ip (loc.index[ip >>> 24].toNat) hget (by omega) (by
      intro i hi
      obtain ⟨off, n, h2, h3, ho, hn, hle⟩ := hrows i hi
      have e1 : ((off.toNat : Nat) : Int) = off := by omega
      have e2 : ((n.toNat : Nat) : Int) = n := by omega
      exact ⟨off.toNat, n.toNat, by rw [e1]; exact h2, by rw [e2]; exact h3, by omega⟩)
  refine ⟨_, r, info, hget, hr, hrlt, ?_, hf⟩
  rcases hrub with hrub | hrub
  · rw [List.getLast?_eq_getElem?] at hlast
    rw [hrub, List.getD_eq_getElem?_getD, hlast]
    show ip ≤ 0xFFFFFFFF
    omega
  · exact hrub

set_option maxRecDepth 100000 in
/-- The example locator is a covering table in good order. -/
theorem exampleLocator_covering :
    exampleLocator.indexData1.getLast? = some 0xFFFFFFFF ∧
      exampleLocator.index.length = 256 ∧
      (∀ s ∈ exampleLocator.index,
        0 ≤ s ∧ s ≤ (exampleLocator.indexData1.length : Int) - 1) ∧
      ∀ i : Nat, i < exampleLocator.indexData1.length →
        ∃ off n : Int, getAt exampleLocator.indexData2 (i : Int) = some off ∧
          getAt exampleLocator.indexData3 (i : Int) = some n ∧ 0 ≤ off ∧ 0 ≤ n ∧
          off + n ≤ (exampleLocator.textData.len : Int) := by
  refine ⟨by decide, by decide, by decide, ?_⟩
  intro i hi
  have hi2 : i < 2 := hi
  rcases i with _ | _ | i
  · exact ⟨0, 12, by decide, by decide, by decide, by decide, by decide⟩
  · exact ⟨12, 11, by decide, by decide, by decide, by decide, by decide⟩
  · omega

theorem C14_lookup_safe_on_covering_table_witness :
    (∃ (start : Int) (r : Nat) (info : LocationInfo),
      getAt exampleLocator.index ((0 >>> 24 : Nat) : Int) = some start ∧
      findIndexOffset exampleLocator 0 start = some (r : Int) ∧
      r < exampleLocator.indexData1.length ∧
      0 ≤ exampleLocator.indexData1.getD r 0 ∧ FindByUint exampleLocator 0 = some info) ∧
    (∃ (start : Int) (r : Nat) (info : LocationInfo),
      getAt exampleLocator.index ((0xFFFFFFFF >>> 24 : Nat) : Int) = some start ∧
      findIndexOffset exampleLocator 0xFFFFFFFF start = some (r : Int) ∧
      r < exampleLocator.indexData1.length ∧
      0xFFFFFFFF ≤ exampleLocator.indexData1.getD r 0 ∧
      FindByUint exampleLocator 0xFFFFFFFF = some info) :=
  ⟨C14_lookup_safe_on_covering_table exampleLocator 0 (by decide)
      exampleLocator_covering.1 exampleLocator_covering.2.1 exampleLocator_covering.2.2.1
      exampleLocator_covering.2.2.2,
    C14_lookup_safe_on_covering_table exampleLocator 0xFFFFFFFF (by decide)
      exampleLocator_covering.1 exampleLocator_covering.2.1 exampleLocator_covering.2.2.1
      exampleLocator_covering.2.2.2⟩

/-! ## Facts about the order of the loaded table -/

/-- The loaded column of upper bounds is, row for row, what the buffer
stores. -/
theorem init_upperBound (data : Slice) (loc : Locator) (h : init data = some loc) :
    ∀ i : Nat, i < loc.indexData1.length →
      loc.indexData1.getD i 0 = storedUpperBound data i := by
  intro i hi
  obtain ⟨_, _, _, _, _, n, _, hl1, _, _, hall⟩ := init_rows data loc h
  obtain ⟨b0, b1, b2, b3, b4, b5, b6, b7, hb, _, g1, _⟩ := hall i (by omega)
  have h4 : (data.mem.drop (1028 + 8 * i)).take 4 = [b0, b1, b2, b3] := by
    have := congrArg (List.take 4) hb
    rw [List.take_take] at this
    exact this
  rw [getAt_natCast] at g1
  rw [List.getD_eq_getElem?_getD, g1, storedUpperBound, h4, bigEndianUint32_four]

/-- The loaded column of upper bounds is non-decreasing exactly when the
stored upper bounds are. -/
theorem init_pairwise_iff (data : Slice) (loc : Locator) (h : init data = some loc) :
    loc.indexData1.Pairwise (· ≤ ·) ↔
      ∀ i j : Nat, i < j → j < loc.indexData1.length →
        storedUpperBound data i ≤ storedUpperBound data j := by
  have hub := init_upperBound data loc h
  rw [List.pairwise_iff_getElem]
  constructor
  · intro hp i j hij hj
    have hi : i < loc.indexData1.length := by omega
    rw [← hub i hi, ← hub j hj, List.getD_eq_getElem _ 0 hi, List.getD_eq_getElem _ 0 hj]
    exact hp i j hi hj hij
  · intro hp i j hi hj hij
    have := hp i j hij hj
    rw [← hub i hi, ← hub j hj, List.getD_eq_getElem _ 0 hi, List.getD_eq_getElem _ 0 hj] at this
    exact this

set_option maxRecDepth 100000 in
/-- The image with two rows in decreasing order loads as it is. -/
theorem init_unsortedData : init unsortedData = some unsortedLocator := by rfl

/-! ## Claims about the order of the loaded table -/

/-- C15 (as stated, refuted): `NewLocatorWithData` yields a Locator from the
image whose two rows have the upper bounds `0xFFFFFFFF` and `0x7FFFFFFF`, in
this order, and the loaded `indexData1` is this decreasing sequence: the loader
makes no check of the order. -/
theorem C15_unsorted_table_loads_counterexample :
    NewLocatorWithData unsortedData = some unsortedLocator ∧
      unsortedLocator.indexData1 = [0xFFFFFFFF, 0x7FFFFFFF] ∧
      ¬ unsortedLocator.indexData1.Pairwise (· ≤ ·) :=
  ⟨init_unsortedData, rfl, by decide⟩

/-- C15 (amended): for every buffer from which the loader yields a Locator,
the loaded `upperBound` sequence (`indexData1`) is, row for row, the sequence
of big-endian u32 values stored at bytes `[1028+8i, 1032+8i)` of the buffer;
so it is non-decreasing across the whole table exactly when the stored
sequence is.  (The loader does not check the order.) -/
theorem C15_loaded_order_is_stored_order (data : Slice) (loc : Locator)
    (h : NewLocatorWithData data = some loc) :
    (∀ i : Nat, i < loc.indexData1.length →
        loc.indexData1.getD i 0 = storedUpperBound data i) ∧
      (loc.indexData1.Pairwise (· ≤ ·) ↔
        ∀ i j : Nat, i < j → j < loc.indexData1.length →
          storedUpperBound data i ≤ storedUpperBound data j) :=
  ⟨init_upperBound data loc h, init_pairwise_iff data loc h⟩

theorem C15_loaded_order_is_stored_order_witness :
    (∀ i : Nat, i < exampleLocator.indexData1.length →
        exampleLocator.indexData1.getD i 0 = storedUpperBound exampleData i) ∧
      (exampleLocator.indexData1.Pairwise (· ≤ ·) ↔
        ∀ i j : Nat, i < j → j < exampleLocator.indexData1.length →
          storedUpperBound exampleData i ≤ storedUpperBound exampleData j) :=
  C15_loaded_order_is_stored_order exampleData exampleLocator init_exampleData

/-! ## More facts about the binary search -/

theorem getAt_eq_some (tbl : List Nat) (i : Int) (v : Nat) (h : getAt tbl i = some v) :
    0 ≤ i ∧ i < (tbl.length : Int) ∧ v = tbl.getD i.toNat 0 := by
  unfold getAt at h
  split at h
  · rename_i h0
    have hlt : i.toNat < tbl.length := by
      rcases Nat.lt_or_ge i.toNat tbl.length with hl | hl
      · exact hl
      · rw [List.getElem?_eq_none hl] at h
        exact absurd h (by simp)
    refine ⟨h0, by omega, ?_⟩
    rw [List.getD_eq_getElem?_getD, h]
    rfl
  · exact absurd h (by simp)

/-- Go's division by two of the sum of `start < end`, for `end` a row. -/
theorem tdiv_two_bounds (s e : Int) (hlt : s < e) (he : 0 ≤ e) :
    s ≤ (s + e).tdiv 2 ∧ (s + e).tdiv 2 ≤ e ∧
      ((s + e).tdiv 2 = e → s = -1 ∧ e = 0) := by
  rcases Int.lt_or_le (s + e) 0 with hneg | hpos
  · have e1 : (s + e).tdiv 2 = -((-(s + e)) / 2) := by
      rw [← Int.tdiv_eq_ediv (by omega) (by omega), Int.neg_tdiv, Int.neg_neg]
    rw [e1]
    omega
  · rw [Int.tdiv_eq_ediv hpos (by omega)]
    omega

/-- The exit of the loop from any `start` not past `end`, on a table of which
`end` is a row: if the loop exits, then with `start = end`, or with
`start = end + 1` after a row below `ip`.  No order on the table and no sign
of `start` is assumed. -/
theorem searchLoop_exit_any (tbl : List Nat) (ip : Nat) :
    ∀ (fuel : Nat) (s e s1 e1 : Int), s ≤ e → 0 ≤ e → e < (tbl.length : Int) →
      searchLoop tbl ip fuel s e = some (s1, e1) →
      0 ≤ e1 ∧ e1 < (tbl.length : Int) ∧
        (s1 = e1 ∨ (s1 = e1 + 1 ∧ tbl.getD e1.toNat 0 < ip)) := by
  intro fuel
  induction fuel with
  | zero =>
    intro s e s1 e1 hse he0 he1 h
    simp only [searchLoop] at h
    split at h
    · exact absurd h (by simp)
    · simp only [Option.some.injEq, Prod.mk.injEq] at h
      obtain ⟨rfl, rfl⟩ := h
      exact ⟨he0, he1, Or.inl (by omega)⟩
  | succ n ih =>
    intro s e s1 e1 hse he0 he1 h
    simp only [searchLoop] at h
    split at h
    · rename_i hlt
      split at h
      · exact absurd h (by simp)
      · rename_i v hv
        obtain ⟨hm0, hm1, hval⟩ := getAt_eq_some tbl _ v hv
        obtain ⟨hb1, hb2, hb3⟩ := tdiv_two_bounds s e hlt he0
        split at h
        · rename_i hip
          rcases Int.lt_or_le ((s + e).tdiv 2) e with hme | hme
          · exact ih _ _ _ _ (by omega) he0 he1 h
          · have hmid : (s + e).tdiv 2 = e := by omega
            rw [hmid] at h hval
            have hexit : searchLoop tbl ip n (e + 1) e = some (e + 1, e) := by
              cases n with
              | zero => simp [searchLoop]
              | succ k => simp [searchLoop]
            rw [hexit] at h
            simp only [Option.some.injEq, Prod.mk.injEq] at h
            obtain ⟨rfl, rfl⟩ := h
            exact ⟨he0, he1, Or.inr ⟨rfl, by omega⟩⟩
        · exact ih _ _ _ _ hb1 hm0 hm1 h
    · simp only [Option.some.injEq, Prod.mk.injEq] at h
      obtain ⟨rfl, rfl⟩ := h
      exact ⟨he0, he1, Or.inl (by omega)⟩

/-- From a row index `start`, the loop of `findIndexOffset` exits with
`start = end`, and the function returns that row, as the search without the
final check does. -/
theorem findIndexOffset_eq_plain (loc : Locator) (ip : Nat) (start : Int)
    (h0 : 0 ≤ start) (h1 : start ≤ (loc.indexData1.length : Int) - 1) :
    ∃ r : Int,
      searchLoop loc.indexData1 ip loc.indexData1.length start
        ((loc.indexData1.length : Int) - 1) = some (r, r) ∧
      findIndexOffset loc ip start = some r ∧ findIndexOffsetPlain loc ip start = some r := by
  obtain ⟨r, hr, ha, hb, _, _⟩ :=
    searchLoop_exit loc.indexData1 ip loc.indexData1.length start
      ((loc.indexData1.length : Int) - 1) h0 h1 (by omega) (by omega)
  have hget := getAt_eq_getD loc.indexData1 r (by omega) (by omega)
  refine ⟨r, hr, ?_, ?_⟩
  · simp only [findIndexOffset, hr, hget]
    split <;> rfl
  · simp only [findIndexOffsetPlain, hr]

/-- On a non-empty table, the final check can change the answer only from a
`start` past the last row. -/
theorem findIndexOffset_ne_plain (loc : Locator) (ip : Nat) (start : Int)
    (hne : loc.indexData1 ≠ [])
    (hdiff : findIndexOffset loc ip start ≠ findIndexOffsetPlain loc ip start) :
    (loc.indexData1.length : Int) - 1 < start := by
  have hpos : 0 < loc.indexData1.length := List.length_pos.mpr hne
  rcases Int.lt_or_le ((loc.indexData1.length : Int) - 1) start with hlt | hle
  · exact hlt
  · exfalso
    apply hdiff
    cases hloop : searchLoop loc.indexData1 ip loc.indexData1.length start
        ((loc.indexData1.length : Int) - 1) with
    | none => simp only [findIndexOffset, findIndexOffsetPlain, hloop]
    | some p =>
      obtain ⟨s1, e1⟩ := p
      obtain ⟨he0, he1, hcase⟩ := searchLoop_exit_any loc.indexData1 ip _ _ _ s1 e1 hle
        (by omega) (by omega) hloop
      have hget := getAt_eq_getD loc.indexData1 e1 he0 he1
      simp only [findIndexOffset, findIndexOffsetPlain, hloop, hget]
      rcases hcase with hc | ⟨_, hc⟩
      · subst hc
        split <;> rfl
      · rw [if_neg (by omega)]

/-- The address order is kept by the search on a non-decreasing table. -/
theorem findIndexOffset_mono (loc : Locator) (ip1 ip2 : Nat) (start : Int)
    (hs : loc.indexData1.Pairwise (· ≤ ·))
    (h0 : 0 ≤ start) (h1 : start ≤ (loc.indexData1.length : Int) - 1) (hip : ip1 ≤ ip2) :
    ∃ r1 r2 : Int, findIndexOffset loc ip1 start = some r1 ∧
      findIndexOffset loc ip2 start = some r2 ∧ r1 ≤ r2 := by
  obtain ⟨r1, hr1, a1, b1, c1, _⟩ := findIndexOffset_exit loc ip1 start h0 h1
  obtain ⟨r2, hr2, a2, b2, _, d2⟩ := findIndexOffset_exit loc ip2 start h0 h1
  refine ⟨r1, r2, hr1, hr2, ?_⟩
  by_contra hlt
  have hlt2 : r2 < r1 := by omega
  rcases c1 with c1 | c1
  · omega
  · rcases d2 with d2 | d2
    · omega
    · have hm := getD_mono _ hs r2.toNat (r1 - 1).toNat (by omega) (by omega)
      omega

/-! ## More claims about the binary search -/

/-- C16: corrupt-data tolerance.  For every non-empty range table (sorted or
not), every `ip` and every `start` with `0 <= start <= last row index`, if no
row at or after `start` has `upperBound >= ip`, then `findIndexOffset(ip,
start)` returns the last row index rather than failing. -/
theorem C16_search_falls_back_to_last_row (loc : Locator) (ip : Nat) (start : Int)
    (hstart0 : 0 ≤ start) (hstart1 : start ≤ (loc.indexData1.length : Int) - 1)
    (hnone : ∀ j : Nat, start ≤ (j : Int) → j < loc.indexData1.length →
      loc.indexData1.getD j 0 < ip) :
    findIndexOffset loc ip start = some ((loc.indexData1.length : Int) - 1) := by
  obtain ⟨r, hr, ha, hb, _, hd⟩ := findIndexOffset_exit loc ip start hstart0 hstart1
  rcases hd with hd | hd
  · rw [hr, hd]
  · have := hnone r.toNat (by omega) (by omega)
    omega

theorem C16_search_falls_back_to_last_row_witness :
    findIndexOffset (tableLocator [50, 10, 30]) 60 1
      = some (((tableLocator [50, 10, 30]).indexData1.length : Int) - 1) :=
  C16_search_falls_back_to_last_row (tableLocator [50, 10, 30]) 60 1 (by decide) (by decide)
    (by
      intro j hj0 hj1
      have hj2 : j < 3 := hj1
      rcases j with _ | _ | _ | j
      · omega
      · decide
      · decide
      · omega)

/-- C17: the final fallback check never changes the answer inside the table.
For every non-empty range table, every `ip` and every `start` with
`0 <= start <= last row index`, the loop of `findIndexOffset` exits with
`start = end`, so that both branches of the final check return the same row,
and `findIndexOffset` equals the plain lower-bound search that returns its
final `start` unconditionally; on a non-empty table the two can differ only
when `start` is greater than the last row index. -/
theorem C17_final_check_is_redundant (loc : Locator) (ip : Nat) :
    (∀ start : Int, 0 ≤ start → start ≤ (loc.indexData1.length : Int) - 1 →
      ∃ r : Int,
        searchLoop loc.indexData1 ip loc.indexData1.length start
          ((loc.indexData1.length : Int) - 1) = some (r, r) ∧
        findIndexOffset loc ip start = some r ∧
        findIndexOffsetPlain loc ip start = some r) ∧
      (∀ start : Int, loc.indexData1 ≠ [] →
        findIndexOffset loc ip start ≠ findIndexOffsetPlain loc ip start →
        (loc.indexData1.length : Int) - 1 < start) :=
  ⟨fun start h0 h1 => findIndexOffset_eq_plain loc ip start h0 h1,
    fun start hne hdiff => findIndexOffset_ne_plain loc ip start hne hdiff⟩

theorem C17_final_check_is_redundant_witness :
    (∃ r : Int,
        searchLoop (tableLocator [10, 20, 30]).indexData1 25
          (tableLocator [10, 20, 30]).indexData1.length 0
          (((tableLocator [10, 20, 30]).indexData1.length : Int) - 1) = some (r, r) ∧
        findIndexOffset (tableLocator [10, 20, 30]) 25 0 = some r ∧
        findIndexOffsetPlain (tableLocator [10, 20, 30]) 25 0 = some r) ∧
      (((tableLocator [10]).indexData1.length : Int) - 1 < 5) :=
  ⟨(C17_final_check_is_redundant (tableLocator [10, 20, 30]) 25).1 0 (by decide) (by decide),
    (C17_final_check_is_redundant (tableLocator [10]) 3).2 5 (by decide) (by decide)⟩

/-- C19: without assuming the table sorted, for every non-empty range table,
every `ip` and every `start` with `0 <= start <= last row index`, the row `r`
returned by `findIndexOffset` satisfies `start <= r <= last`, (`r = last` or
`indexData1[r] >= ip`), and (`r = start` or `indexData1[r-1] < ip`);
consequently, when the last row's `upperBound` is `0xFFFFFFFF`, the returned
row has `upperBound >= ip` for every 32-bit `ip`. -/
theorem C19_search_result_unsorted (loc : Locator) (ip : Nat) (start : Int)
    (hstart0 : 0 ≤ start) (hstart1 : start ≤ (loc.indexData1.length : Int) - 1) :
    ∃ r : Int, findIndexOffset loc ip start = some r ∧ start ≤ r ∧
      r ≤ (loc.indexData1.length : Int) - 1 ∧
      (r = (loc.indexData1.length : Int) - 1 ∨ ip ≤ loc.indexData1.getD r.toNat 0) ∧
      (r = start ∨ loc.indexData1.getD (r - 1).toNat 0 < ip) ∧
      (ip < 2 ^ 32 → loc.indexData1.getLast? = some 0xFFFFFFFF →
        ip ≤ loc.indexData1.getD r.toNat 0) := by
  obtain ⟨r, hr, ha, hb, hc, hd⟩ := findIndexOffset_exit loc ip start hstart0 hstart1
  refine ⟨r, hr, ha, hb, hd, hc, ?_⟩
  intro hip hlast
  rcases hd with hd | hd
  · rw [List.getLast?_eq_getElem?] at hlast
    have hidx : r.toNat = loc.indexData1.length - 1 := by omega
    rw [hidx, List.getD_eq_getElem?_getD, hlast]
    show ip ≤ 0xFFFFFFFF
    omega
  · exact hd

theorem C19_search_result_unsorted_witness :
    ∃ r : Int, findIndexOffset (tableLocator [50, 10, 0xFFFFFFFF]) 60 1 = some r ∧
      (1 : Int) ≤ r ∧
      r ≤ ((tableLocator [50, 10, 0xFFFFFFFF]).indexData1.length : Int) - 1 ∧
      (r = ((tableLocator [50, 10, 0xFFFFFFFF]).indexData1.length : Int) - 1 ∨
        60 ≤ (tableLocator [50, 10, 0xFFFFFFFF]).indexData1.getD r.toNat 0) ∧
      (r = 1 ∨ (tableLocator [50, 10, 0xFFFFFFFF]).indexData1.getD (r - 1).toNat 0 < 60) ∧
      (60 < 2 ^ 32 → (tableLocator [50, 10, 0xFFFFFFFF]).indexData1.getLast? = some 0xFFFFFFFF →
        60 ≤ (tableLocator [50, 10, 0xFFFFFFFF]).indexData1.getD r.toNat 0) :=
  C19_search_result_unsorted (tableLocator [50, 10, 0xFFFFFFFF]) 60 1 (by decide) (by decide)

/-- C20: monotonicity in the address.  For every non-empty non-decreasing
range table, every `start` with `0 <= start <= last row index` and every
`ip1 <= ip2`, both searches return a row and
`findIndexOffset(ip1, start) <= findIndexOffset(ip2, start)`: a larger address
never resolves to an earlier row. -/
theorem C20_search_monotone_in_address (loc : Locator) (ip1 ip2 : Nat) (start : Int)
    (hsorted : loc.indexData1.Pairwise (· ≤ ·))
    (hstart0 : 0 ≤ start) (hstart1 : start ≤ (loc.indexData1.length : Int) - 1)
    (hip : ip1 ≤ ip2) :
    ∃ r1 r2 : Int, findIndexOffset loc ip1 start = some r1 ∧
      findIndexOffset loc ip2 start = some r2 ∧ r1 ≤ r2 :=
  findIndexOffset_mono loc ip1 ip2 start hsorted hstart0 hstart1 hip

theorem C20_search_monotone_in_address_witness :
    ∃ r1 r2 : Int, findIndexOffset (tableLocator [10, 20, 20, 30, 40]) 15 0 = some r1 ∧
      findIndexOffset (tableLocator [10, 20, 20, 30, 40]) 35 0 = some r2 ∧ r1 ≤ r2 :=
  C20_search_monotone_in_address (tableLocator [10, 20, 20, 30, 40]) 15 35 0 (by decide)
    (by decide) (by decide) (by decide)

/-! ## Claims about the process-wide locator -/

/-- C18: singleton initialisation happens at most once.  In every state where
the process-wide locator `std` is already set, `Init(path)` and
`InitWithData(data)` leave `std` unchanged and report no error (and do not
panic), for every argument: whatever reading the path gives, whatever the
buffer.  When `std` is unset, `InitWithData(data)` sets it to
`NewLocatorWithData(data)` (and panics where `NewLocatorWithData` panics). -/
theorem C18_init_at_most_once {E : Type} (readFile : Bytes → Except E Slice)
    (dataFile : Bytes) (data : Slice) (loc : Locator) :
    Init readFile dataFile (some loc) = some (some loc, none) ∧
      InitWithData data (some loc) = some (some loc) ∧
      InitWithData data none = (NewLocatorWithData data).map some := by
  refine ⟨rfl, rfl, ?_⟩
  unfold InitWithData
  cases NewLocatorWithData data <;> rfl

end Ip17mon
